import Mathlib

/-!
Verification of the Credere application-lifecycle engine.

This file gives a shallow embedding, in Lean, of the lifecycle engine of the
Credere repository: the ingestion and deduplication pipeline
(`app/__main__.py`, `app/background_processes/application_utils.py`), the
status state machine of the application routers
(`app/routers/applications.py`), and the time-driven sweeps (lapsing, SLA
overdue, retention/erasure).  Timestamps are modelled as integers counting
whole days, so that the Python `timedelta.days` of a difference of two
day-aligned datetimes is plain integer subtraction.  Database tables are
modelled as Lean lists, a transaction as a value of type `Except e DB` whose
`error` case stands for a rollback (the caller keeps the previous state), and
each sweep as a pure function over the state.
-/

namespace Credere

/-- `ApplicationStatus` from `app/schema/core.py`. -/
inductive ApplicationStatus where
  | PENDING
  | ACCEPTED
  | LAPSED
  | DECLINED
  | SUBMITTED
  | STARTED
  | APPROVED
  | CONTRACT_UPLOADED
  | COMPLETED
  | REJECTED
  | INFORMATION_REQUESTED
  deriving DecidableEq, Repr

/-- `BorrowerStatus` from `app/schema/core.py`. -/
inductive BorrowerStatus where
  | ACTIVE
  | DECLINE_OPPORTUNITIES
  deriving DecidableEq, Repr

/-- The message types used by the lifecycle engine (`MessageType` in
`app/schema/core.py`, with the members referenced by the sweeps). -/
inductive MessageType where
  | BORROWER_INVITATION
  | BORROWER_PENDING_APPLICATION_REMINDER
  | BORROWER_PENDING_SUBMIT_REMINDER
  | OVERDUE_APPLICATION
  deriving DecidableEq, Repr

/-- The application-action types used by the days-waiting computation
(`ApplicationActionType` in `app/schema/core.py`, with the members referenced
by `get_application_days_passed`). -/
inductive ApplicationActionType where
  | FI_REQUEST_INFORMATION
  | MSME_UPLOAD_ADDITIONAL_DOCUMENT_COMPLETED
  | OTHER
  deriving DecidableEq, Repr

/-- One row of the `application_action` audit table, restricted to the two
columns the engine reads (`type`, `created_at`). -/
structure AppAction where
  type : ApplicationActionType
  created_at : Int
  deriving DecidableEq, Repr

/-- One row of the `message` audit table, restricted to the columns the
engine reads. -/
structure Message where
  type : MessageType
  application_id : Nat
  deriving DecidableEq, Repr

/-- The `Application` row (`app/schema/core.py`), restricted to the fields the
lifecycle engine reads or writes.  `borrower_documents` holds the ids of the
associated `borrower_document` rows; `actions` holds the associated
`application_action` rows in `created_at` order (the order the queries of
`get_application_days_passed` return them in). -/
structure Application where
  id : Nat := 0
  award_id : Nat := 0
  borrower_id : Nat := 0
  lender_id : Option Nat := none
  status : ApplicationStatus := .PENDING
  uuid : String := ""
  primary_email : String := ""
  award_borrower_identifier : String := ""
  created_at : Int := 0
  expired_at : Option Int := none
  archived_at : Option Int := none
  overdued_at : Option Int := none
  borrower_accepted_at : Option Int := none
  borrower_declined_at : Option Int := none
  borrower_submitted_at : Option Int := none
  lender_started_at : Option Int := none
  lender_approved_at : Option Int := none
  lender_rejected_at : Option Int := none
  information_requested_at : Option Int := none
  application_lapsed_at : Option Int := none
  pending_documents : Bool := false
  borrower_documents : List Nat := []
  actions : List AppAction := []
  deriving DecidableEq, Repr

/-- The `Borrower` row (`app/schema/core.py`), restricted to the fields the
lifecycle engine reads or writes. -/
structure Borrower where
  id : Nat := 0
  borrower_identifier : String := ""
  legal_name : String := ""
  email : String := ""
  address : String := ""
  legal_identifier : String := ""
  source_data : String := ""
  status : BorrowerStatus := .ACTIVE
  declined_at : Option Int := none
  deriving DecidableEq, Repr

/-- The `Lender` row (`app/schema/core.py`), restricted to the fields the SLA
sweep reads. -/
structure Lender where
  id : Nat := 0
  name : String := ""
  sla_days : Int := 0
  deriving DecidableEq, Repr

/-- The `Award` row (`app/schema/core.py`), restricted to the fields the
ingestion pipeline and the retention sweep read or write. -/
structure Award where
  id : Nat := 0
  borrower_id : Option Nat := none
  source_contract_id : String := ""
  previous : Bool := false
  deriving DecidableEq, Repr

/-- The configuration the sweeps read from `app_settings`
(`app/settings.py`).  The float `progress_to_remind_started_applications`
(0.8 in production) is modelled as the exact rational
`progress_num / progress_den`. -/
structure AppSettings where
  application_expiration_days : Int := 7
  days_to_change_to_lapsed : Int := 14
  days_to_erase_borrower_data : Int := 30
  reminder_days_before_expiration : Int := 3
  progress_num : Int := 4
  progress_den : Int := 5
  deriving DecidableEq, Repr

/-- The database state: one list per table, plus the append-only log of
outbound emails (the observable side effects of `mail.send_*`). -/
structure DB where
  awards : List Award := []
  borrowers : List Borrower := []
  applications : List Application := []
  lenders : List Lender := []
  messages : List Message := []
  deriving DecidableEq, Repr

/-- Modelled from the spec: `get_secret_hash` (`secretHash` in the spec) is
implemented in `app/util.py`, which is not part of the sources at hand; the
spec requires a deterministic keyed one-way hash that is collision-free for
practical purposes, so it is modelled as an injective tagged encoding of the
seed. -/
def get_secret_hash (seed : String) : String :=
  "hash." ++ seed

/-- Modelled from the spec: `generate_uuid` (`opaqueToken` in the spec) is
implemented in `app/util.py`, which is not part of the sources at hand; the
spec requires a stable deterministic derivation from its seed, so it is
modelled as an injective tagged encoding of the seed. -/
def generate_uuid (seed : String) : String :=
  "uuid." ++ seed

/-! ### Days waiting for the lender

`get_application_days_passed` in
`app/background_processes/application_utils.py` (the newer
`Application.days_waiting_for_lender` calls the same computation).  The
queries return the `FI_REQUEST_INFORMATION` and
`MSME_UPLOAD_ADDITIONAL_DOCUMENT_COMPLETED` actions of the application in
`created_at` order; the embedding takes those two ordered lists of
timestamps, the application's `lender_started_at`, and the current time. -/

/-- The loop over the upload-completion actions: each completion is paired
with the next remaining request; a completion left without a request is
paired with the current time and the loop breaks. -/
def pairUploads : List Int → List Int → Int → List (Int × Int)
  | [], _, _ => []
  | u :: _, [], now => [(now, u)]
  | u :: us, r :: rs, now => (r, u) :: pairUploads us rs now

/-- `get_application_days_passed`: the first information request (or the
current time when there is none) is paired with `lender_started_at`, the
remaining requests are paired FIFO with the upload completions by
`pairUploads`, and the result is the sum of the differences over the pairs. -/
def get_application_days_passed (lenderStartedAt now : Int)
    (fiRequests msmeUploads : List Int) : Int :=
  let seeded :=
    match fiRequests with
    | r :: rest => ((r, lenderStartedAt), rest)
    | [] => ((now, lenderStartedAt), [])
  let paired := seeded.1 :: pairUploads msmeUploads seeded.2 now
  (paired.map (fun p => p.1 - p.2)).sum

/-- Follows the spec's words, for comparison with
`get_application_days_passed`: pair the oldest request with the oldest
completion (FIFO), pair a request with no matching completion against the
current time, and sum the day-deltas over all pairs. -/
def spec_days_waiting (now : Int) : List Int → List Int → Int
  | [], _ => 0
  | r :: rs, [] => (now - r) + spec_days_waiting now rs []
  | r :: rs, u :: us => (u - r) + spec_days_waiting now rs us

/-- The timestamps of the application's `FI_REQUEST_INFORMATION` actions, in
stored (i.e. `created_at`) order. -/
def fiRequestTimes (a : Application) : List Int :=
  (a.actions.filter (fun x => x.type == .FI_REQUEST_INFORMATION)).map
    (fun x => x.created_at)

/-- The timestamps of the application's
`MSME_UPLOAD_ADDITIONAL_DOCUMENT_COMPLETED` actions, in stored order. -/
def msmeUploadTimes (a : Application) : List Int :=
  (a.actions.filter
      (fun x => x.type == .MSME_UPLOAD_ADDITIONAL_DOCUMENT_COMPLETED)).map
    (fun x => x.created_at)

/-- `application.days_waiting_for_lender` as called by the SLA sweep.  For the
swept statuses (`STARTED`, `CONTRACT_UPLOADED`) `lender_started_at` is always
set (it is assigned when the application enters `STARTED`); the `getD` only
totalizes the function. -/
def days_waiting_for_lender (now : Int) (a : Application) : Int :=
  get_application_days_passed (a.lender_started_at.getD now) now
    (fiRequestTimes a) (msmeUploadTimes a)

/-! ### Ingestion and deduplication

`fetch_awards` and `_create_complete_application` in `app/__main__.py`, with
`create_application` from `app/background_processes/application_utils.py`.
A raw source record is modelled by the fields the pipeline reads from it. -/

/-- One raw record of the external award source.  `has_id_del_portafolio` and
`has_nit` model whether the two required natural-key fields are present in the
JSON object; the remaining fields model the data the mapping functions
(`data_access.get_supplier_id`, `data_access.get_borrower`,
`util.create_award_from_data_source`) extract from it. -/
structure SourceEntry where
  has_id_del_portafolio : Bool := true
  has_nit : Bool := true
  supplier_id : String := ""
  source_contract_id : String := ""
  legal_identifier : String := ""
  legal_name : String := ""
  email : String := ""
  address : String := ""
  deriving DecidableEq, Repr

/-- The reasons `_create_complete_application` raises `SkippedAwardError`
(caught per record by `handle_skipped_award`). -/
inductive SkipReason where
  | awardExists
  | borrowerOptedOut
  | applicationExists
  deriving DecidableEq, Repr

/-- `data_access.get_supplier_id` (`app/sources/colombia.py`): extract the
supplier identifier from the record. -/
def get_supplier_id (e : SourceEntry) : String :=
  e.supplier_id

/-- The application dedup key computed by the pipeline: the secret hash of
the borrower's legal identifier concatenated with the award's source contract
id. -/
def dedupKey (legal_identifier source_contract_id : String) : String :=
  get_secret_hash (legal_identifier ++ source_contract_id)

/-- The number of applications carrying a given dedup key. -/
def countKey (s : DB) (k : String) : Nat :=
  (s.applications.filter (fun a => a.award_borrower_identifier == k)).length

/-- Modelled from the spec: `util.create_award_from_data_source`
(`app/util.py` is not part of the sources at hand).  Per the spec and the
`fetch_awards` docstring, award creation is idempotent on the natural key: if
an award with the same source contract id exists the record is skipped,
otherwise the award is created. -/
def create_award_from_data_source (e : SourceEntry) (s : DB) :
    Except SkipReason Award :=
  if s.awards.any (fun aw => aw.source_contract_id == e.source_contract_id) then
    .error .awardExists
  else
    .ok { id := s.awards.length, borrower_id := none,
          source_contract_id := e.source_contract_id }

/-- Modelled from the spec: the borrower data `data_access.get_borrower`
extracts from the record (`app/sources/colombia.py` is not part of the
sources at hand): the fields newly observed for this supplier. -/
def get_borrower_data (e : SourceEntry) (b : Borrower) : Borrower :=
  { b with
    legal_identifier := e.legal_identifier
    legal_name := e.legal_name
    email := e.email
    address := e.address }

/-- `create_application` from
`app/background_processes/application_utils.py`: compute the dedup key,
skip if an application with that key exists, otherwise build the new
application (status `PENDING`, uuid derived from the dedup key, expiration
set from the settings). -/
def create_application (cfg : AppSettings) (award_id borrower_id : Nat)
    (email legal_identifier source_contract_id : String) (now : Int)
    (s : DB) : Except SkipReason Application :=
  let award_borrower_identifier := get_secret_hash
    (legal_identifier ++ source_contract_id)
  match s.applications.find?
      (fun a => a.award_borrower_identifier == award_borrower_identifier) with
  | some _ => .error .applicationExists
  | none =>
    .ok { id := s.applications.length
          award_id := award_id
          borrower_id := borrower_id
          primary_email := email
          award_borrower_identifier := award_borrower_identifier
          uuid := generate_uuid award_borrower_identifier
          status := .PENDING
          created_at := now
          expired_at := some (now + cfg.application_expiration_days) }

/-- `_create_complete_application` from `app/__main__.py`: create the award
(skip if it exists), resolve or create the borrower (skip if it opted out of
all opportunities), create the application (skip if the dedup key exists),
record the invitation message, and commit.  The `error` case models
`SkippedAwardError` raised inside `handle_skipped_award`: the transaction is
rolled back and the caller keeps the previous state. -/
def create_complete_application (cfg : AppSettings) (now : Int)
    (e : SourceEntry) (s : DB) : Except SkipReason DB :=
  match create_award_from_data_source e s with
  | .error r => .error r
  | .ok award =>
    let borrower_identifier := get_secret_hash (get_supplier_id e)
    let resolved : Except SkipReason Borrower :=
      match s.borrowers.find?
          (fun b => b.borrower_identifier == borrower_identifier) with
      | some b =>
        if b.status = .DECLINE_OPPORTUNITIES then .error .borrowerOptedOut
        else .ok (get_borrower_data e b)
      | none =>
        .ok (get_borrower_data e
          { id := s.borrowers.length, borrower_identifier := borrower_identifier })
    match resolved with
    | .error r => .error r
    | .ok borrower =>
      match create_application cfg award.id borrower.id borrower.email
          borrower.legal_identifier award.source_contract_id now s with
      | .error r => .error r
      | .ok application =>
        .ok { s with
              awards := s.awards ++ [{ award with borrower_id := some borrower.id }]
              borrowers :=
                if s.borrowers.any
                    (fun b => b.borrower_identifier == borrower_identifier) then
                  s.borrowers.map (fun b =>
                    if b.borrower_identifier == borrower_identifier then borrower
                    else b)
                else s.borrowers ++ [borrower]
              applications := s.applications ++ [application]
              messages := s.messages ++
                [{ type := .BORROWER_INVITATION,
                   application_id := application.id }] }

/-- One record of the `fetch_awards` loop under `handle_skipped_award`: a
skip rolls the record's transaction back (the state is unchanged) and the
sweep continues. -/
def processEntry (cfg : AppSettings) (now : Int) (e : SourceEntry) (s : DB) :
    DB :=
  match create_complete_application cfg now e s with
  | .ok s' => s'
  | .error _ => s

/-- The result of one ingestion sweep: either it completed, or a record with
missing required fields raised `SourceFormatError` and aborted it; in both
cases the state reached so far is kept (each record committed its own
transaction). -/
inductive SweepResult where
  | completed (s : DB)
  | aborted (s : DB)
  deriving DecidableEq, Repr

/-- The record loop of `fetch_awards`: a record missing one of the required
natural-key fields (`id_del_portafolio`, `nit_del_proveedor_adjudicado`)
raises `SourceFormatError`, aborting the whole sweep; any other record is
processed by `_create_complete_application` under `handle_skipped_award`. -/
def processEntries (cfg : AppSettings) (now : Int) :
    List SourceEntry → DB → SweepResult
  | [], s => .completed s
  | e :: rest, s =>
    if e.has_id_del_portafolio && e.has_nit then
      processEntries cfg now rest (processEntry cfg now e s)
    else
      .aborted s

/-- The pagination loop of `fetch_awards`: pages are fetched by increasing
index until an empty page is returned, and their records are processed in
order.  `pages` lists the source's responses by index. -/
def fetch_awards (cfg : AppSettings) (now : Int) (pages : List (List SourceEntry))
    (s : DB) : SweepResult :=
  processEntries cfg now (pages.takeWhile (fun p => !p.isEmpty)).flatten s

/-- The legacy `create_application` from
`background_processes/application_utils.py` (the pre-rewrite generation kept
in the repository): note its uuid is derived from the legal identifier alone,
not from the dedup key. -/
def create_application_legacy (award_id borrower_id : Nat)
    (email legal_identifier source_contract_id : String) (now : Int)
    (days_until_expired : Int) : Application :=
  { award_id := award_id
    borrower_id := borrower_id
    primary_email := email
    award_borrower_identifier :=
      get_secret_hash (legal_identifier ++ source_contract_id)
    uuid := generate_uuid legal_identifier
    status := .PENDING
    created_at := now
    expired_at := some (now + days_until_expired) }

/-! ### The status state machine (`app/routers/applications.py`)

Each endpoint body runs inside `transaction_session(session)`: an exception
rolls the whole unit of work back, so an operation is modelled as a function
returning `Except HTTPException Application` whose `error` case leaves the
persisted row unchanged. -/

/-- The typed error surfaced to the interactive caller. -/
structure HTTPException where
  status_code : Nat
  deriving DecidableEq, Repr

/-- Modelled from the spec: `utils.check_application_status`
(`app/utils/applications.py` is not part of the sources at hand): fail with
the HTTP-409-equivalent `InvalidStateTransition` error unless the persisted
status equals the required one exactly. -/
def check_application_status (a : Application)
    (required : ApplicationStatus) : Except HTTPException Unit :=
  if a.status = required then .ok () else .error { status_code := 409 }

/-- Modelled from the spec: `utils.check_is_application_expired`
(`app/utils/applications.py` is not part of the sources at hand): fail when
the application's `expired_at` is set and in the past. -/
def check_is_application_expired (a : Application) (now : Int) :
    Except HTTPException Unit :=
  match a.expired_at with
  | some t => if t < now then .error { status_code := 404 } else .ok ()
  | none => .ok ()

/-- `access_scheme` (`PENDING` to `ACCEPTED`): set `borrower_accepted_at`,
change the status, and clear `expired_at`. -/
def access_scheme (now : Int) (a : Application) :
    Except HTTPException Application :=
  match check_is_application_expired a now with
  | .error err => .error err
  | .ok _ =>
    match check_application_status a .PENDING with
    | .error err => .error err
    | .ok _ =>
      .ok { a with
            borrower_accepted_at := some now
            status := .ACCEPTED
            expired_at := none }

/-- `decline` (`PENDING` to `DECLINED`): record the decline; with
`decline_all` also set the owning borrower's status to
`DECLINE_OPPORTUNITIES` and record its `declined_at`. -/
def decline (decline_all : Bool) (now : Int) (a : Application)
    (b : Borrower) : Except HTTPException (Application × Borrower) :=
  match check_is_application_expired a now with
  | .error err => .error err
  | .ok _ =>
    match check_application_status a .PENDING with
    | .error err => .error err
    | .ok _ =>
      let a' := { a with status := .DECLINED, borrower_declined_at := some now }
      let b' :=
        if decline_all then
          { b with status := .DECLINE_OPPORTUNITIES, declined_at := some now }
        else b
      .ok (a', b')

/-- `rollback_decline` (`DECLINED` back to `PENDING`). -/
def rollback_decline (now : Int) (a : Application) (b : Borrower) :
    Except HTTPException (Application × Borrower) :=
  match check_is_application_expired a now with
  | .error err => .error err
  | .ok _ =>
    match check_application_status a .DECLINED with
    | .error err => .error err
    | .ok _ =>
      let a' := { a with status := .PENDING, borrower_declined_at := none }
      let b' :=
        if b.status = .DECLINE_OPPORTUNITIES then
          { b with status := .ACTIVE, declined_at := none }
        else b
      .ok (a', b')

/-- `update_apps_send_notifications` (`ACCEPTED` to `SUBMITTED`): requires a
selected lender. -/
def submit_application (now : Int) (a : Application) :
    Except HTTPException Application :=
  match check_application_status a .ACCEPTED with
  | .error err => .error err
  | .ok _ =>
    if a.lender_id = none then .error { status_code := 400 }
    else
      .ok { a with
            status := .SUBMITTED
            borrower_submitted_at := some now
            pending_documents := false }

/-- The lender's start operation (`SUBMITTED` to `STARTED`): sets
`lender_started_at`. -/
def start_application (now : Int) (a : Application) :
    Except HTTPException Application :=
  match check_application_status a .SUBMITTED with
  | .error err => .error err
  | .ok _ =>
    .ok { a with status := .STARTED, lender_started_at := some now }

/-- `email_sme` (`STARTED` to `INFORMATION_REQUESTED`): records the
`FI_REQUEST_INFORMATION` action. -/
def request_information (now : Int) (a : Application) :
    Except HTTPException Application :=
  match check_application_status a .STARTED with
  | .error err => .error err
  | .ok _ =>
    .ok { a with
          status := .INFORMATION_REQUESTED
          information_requested_at := some now
          pending_documents := true
          actions := a.actions ++ [{ type := .FI_REQUEST_INFORMATION,
                                     created_at := now }] }

/-- `complete_information_request` (`INFORMATION_REQUESTED` back to
`STARTED`): records the `MSME_UPLOAD_ADDITIONAL_DOCUMENT_COMPLETED`
action. -/
def complete_information_request (now : Int) (a : Application) :
    Except HTTPException Application :=
  match check_application_status a .INFORMATION_REQUESTED with
  | .error err => .error err
  | .ok _ =>
    .ok { a with
          status := .STARTED
          pending_documents := false
          actions := a.actions ++
            [{ type := .MSME_UPLOAD_ADDITIONAL_DOCUMENT_COMPLETED,
               created_at := now }] }

/-- `approve_application` (`STARTED` to `APPROVED`); the field updates of the
missing `utils.approve_application` are modelled from the spec. -/
def approve_application (now : Int) (a : Application) :
    Except HTTPException Application :=
  match check_application_status a .STARTED with
  | .error err => .error err
  | .ok _ =>
    .ok { a with status := .APPROVED, lender_approved_at := some now }

/-- `confirm_upload_contract` (`APPROVED` to `CONTRACT_UPLOADED`). -/
def confirm_upload_contract (now : Int) (a : Application) :
    Except HTTPException Application :=
  match check_application_status a .APPROVED with
  | .error err => .error err
  | .ok _ =>
    .ok { a with status := .CONTRACT_UPLOADED }

/-- `reject_application` (to `REJECTED`): the endpoint itself guards the
status against the two-element set written in its body (`STARTED` or
`CONTRACT_UPLOADED`), raising HTTP 409 otherwise; the field updates of the
missing `utils.reject_application` are modelled from the spec. -/
def reject_application (now : Int) (a : Application) :
    Except HTTPException Application :=
  if a.status = .CONTRACT_UPLOADED ∨ a.status = .STARTED then
    .ok { a with status := .REJECTED, lender_rejected_at := some now }
  else
    .error { status_code := 409 }

/-- `complete_application` (`CONTRACT_UPLOADED` to `COMPLETED`); the field
updates of the missing `utils.complete_application` are modelled from the
spec. -/
def complete_application (now : Int) (a : Application) :
    Except HTTPException Application :=
  match check_application_status a .CONTRACT_UPLOADED with
  | .error err => .error err
  | .ok _ =>
    .ok { a with status := .COMPLETED, lender_approved_at := some now }

/-- Modelled from the spec: `utils.copy_application`
(`find-alternative-credit-option`, permitted only from `REJECTED`): copies
the award/borrower pair into a fresh `PENDING`-equivalent application with a
new dedup key and a fresh expiration. -/
def copy_application (cfg : AppSettings) (now : Int) (freshId : Nat)
    (a : Application) : Except HTTPException Application :=
  match check_application_status a .REJECTED with
  | .error err => .error err
  | .ok _ =>
    .ok { a with
          id := freshId
          status := .PENDING
          expired_at := some (now + cfg.application_expiration_days)
          lender_id := none
          lender_started_at := none
          lender_rejected_at := none
          archived_at := none }

/-- The `transaction_session` wrapper made explicit: on an exception the unit
of work rolls back and the persisted application is unchanged. -/
def transactional (f : Application → Except HTTPException Application)
    (a : Application) : Except HTTPException Unit × Application :=
  match f a with
  | .ok a' => (.ok (), a')
  | .error err => (.error err, a)

/-! ### The time-driven sweeps -/

/-- SQL three-valued comparison `column + interval < now` used by the sweep
filters: false when the column is NULL. -/
def optPlusLt (o : Option Int) (d now : Int) : Bool :=
  match o with
  | some t => decide (t + d < now)
  | none => false

/-- SQL comparison `column > now`: false when the column is NULL. -/
def optGt (o : Option Int) (now : Int) : Bool :=
  match o with
  | some t => decide (now < t)
  | none => false

/-- SQL comparison `column <= bound`: false when the column is NULL. -/
def optLe (o : Option Int) (bound : Int) : Bool :=
  match o with
  | some t => decide (t ≤ bound)
  | none => false

/-- The selection predicate of the lapsing sweep
(`get_lapsed_applications` / `Application.lapseable`): status `PENDING`,
`ACCEPTED` or `INFORMATION_REQUESTED` with the status-entry timestamp older
than the configured threshold, and not archived. -/
def lapseable (cfg : AppSettings) (now : Int) (a : Application) : Bool :=
  ((a.status == .PENDING &&
      decide (a.created_at + cfg.days_to_change_to_lapsed < now)) ||
   (a.status == .ACCEPTED &&
      optPlusLt a.borrower_accepted_at cfg.days_to_change_to_lapsed now) ||
   (a.status == .INFORMATION_REQUESTED &&
      optPlusLt a.information_requested_at cfg.days_to_change_to_lapsed now)) &&
  a.archived_at == none

/-- The per-application action of `update_applications_to_lapsed`: a selected
application becomes `LAPSED` with `application_lapsed_at` set. -/
def lapseStep (cfg : AppSettings) (now : Int) (a : Application) : Application :=
  if lapseable cfg now a then
    { a with status := .LAPSED, application_lapsed_at := some now }
  else a

/-- `update_applications_to_lapsed` (`app/__main__.py`): lapse every selected
application. -/
def update_applications_to_lapsed (cfg : AppSettings) (now : Int)
    (apps : List Application) : List Application :=
  apps.map (lapseStep cfg now)

/-- The selection predicate of the retention sweep
(`get_dated_applications` / `Application.archivable`): a final status whose
terminal timestamp is older than the retention window, and not archived. -/
def archivable (cfg : AppSettings) (now : Int) (a : Application) : Bool :=
  ((a.status == .DECLINED &&
      optPlusLt a.borrower_declined_at cfg.days_to_erase_borrower_data now) ||
   (a.status == .REJECTED &&
      optPlusLt a.lender_rejected_at cfg.days_to_erase_borrower_data now) ||
   (a.status == .COMPLETED &&
      optPlusLt a.lender_approved_at cfg.days_to_erase_borrower_data now) ||
   (a.status == .LAPSED &&
      optPlusLt a.application_lapsed_at cfg.days_to_erase_borrower_data now)) &&
  a.archived_at == none

/-- The scrubbing of one application's own row by the retention sweep: blank
the primary email, delete the borrower documents, set `archived_at`. -/
def archiveAppRecord (now : Int) (a : Application) : Application :=
  { a with primary_email := "", archived_at := some now,
           borrower_documents := [] }

/-- The scrubbing of a borrower's personal fields by the retention sweep. -/
def blankBorrower (b : Borrower) : Borrower :=
  { b with legal_name := "", email := "", address := "",
           legal_identifier := "", source_data := "" }

/-- The `Application.unarchived` check of the retention sweep: does some
other application (a different id) of the same borrower have `archived_at`
NULL? -/
def hasOtherActive (apps : List Application) (aid bid : Nat) : Bool :=
  apps.any (fun x => x.id != aid && x.borrower_id == bid &&
    x.archived_at == none)

/-- One iteration of `remove_dated_application_data` over a selected
application: mark its award `previous`, scrub the application row, and blank
the borrower's personal fields when no other non-archived application
references the borrower (the check runs against the session state, in which
this application is already archived). -/
def archiveStep (now : Int) (s : DB) (a : Application) : DB :=
  let apps := s.applications.map (fun x =>
    if x.id == a.id then archiveAppRecord now x else x)
  let awards := s.awards.map (fun w =>
    if w.id == a.award_id then { w with previous := true } else w)
  let borrowers :=
    if hasOtherActive apps a.id a.borrower_id then s.borrowers
    else s.borrowers.map (fun b =>
      if b.id == a.borrower_id then blankBorrower b else b)
  { s with applications := apps, awards := awards, borrowers := borrowers }

/-- `remove_dated_application_data` (`app/__main__.py`): materialize the
selected applications, then process them in order. -/
def remove_dated_application_data (cfg : AppSettings) (now : Int) (s : DB) :
    DB :=
  (s.applications.filter (archivable cfg now)).foldl (archiveStep now) s

/-- The per-lender counter of the SLA sweep (`defaultdict` keyed by lender
id, in first-insertion order). -/
def bumpCount : List (Nat × Nat) → Nat → List (Nat × Nat)
  | [], lid => [(lid, 1)]
  | (l, c) :: rest, lid =>
    if l = lid then (l, c + 1) :: rest else (l, c) :: bumpCount rest lid

/-- The accumulator of the SLA sweep loop: the applications processed so far,
the per-lender counters, and the application ids for which an administrator
(OCP) alert email was sent. -/
structure SlaAcc where
  apps : List Application := []
  counts : List (Nat × Nat) := []
  ocp_emails : List Nat := []
  deriving DecidableEq, Repr

/-- Is the application in one of the statuses the SLA sweep queries? -/
def slaEligible (a : Application) : Bool :=
  a.status == .CONTRACT_UPLOADED || a.status == .STARTED

/-- One iteration of the `sla_overdue_applications` loop: for an application
in `CONTRACT_UPLOADED` or `STARTED`, compute the days waiting for the lender;
above `sla_days` times the warn fraction, bump the lender's counter; above
the full `sla_days`, also set `overdued_at` and email the administrators. -/
def slaStep (cfg : AppSettings) (lenders : List Lender) (now : Int)
    (acc : SlaAcc) (a : Application) : SlaAcc :=
  if slaEligible a then
    match a.lender_id.bind (fun lid => lenders.find? (fun l => l.id == lid)) with
    | some lender =>
      let days := days_waiting_for_lender now a
      if days * cfg.progress_den > lender.sla_days * cfg.progress_num then
        let counts := bumpCount acc.counts lender.id
        if days > lender.sla_days then
          { apps := acc.apps ++ [{ a with overdued_at := some now }]
            counts := counts
            ocp_emails := acc.ocp_emails ++ [a.id] }
        else { acc with apps := acc.apps ++ [a], counts := counts }
      else { acc with apps := acc.apps ++ [a] }
    | none => { acc with apps := acc.apps ++ [a] }
  else { acc with apps := acc.apps ++ [a] }

/-- The outcome of one SLA sweep: the updated applications, the administrator
alerts sent during the loop, and the one aggregated notice per lender sent
after it (lender id paired with its accumulated count). -/
structure SlaOutcome where
  apps : List Application
  ocp_emails : List Nat
  lender_emails : List (Nat × Nat)
  deriving DecidableEq, Repr

/-- `sla_overdue_applications` (`app/__main__.py`): run the loop over every
application, then send one aggregated email per lender with its accumulated
count. -/
def sla_overdue_applications (cfg : AppSettings) (lenders : List Lender)
    (now : Int) (apps : List Application) : SlaOutcome :=
  let acc := apps.foldl (slaStep cfg lenders now) {}
  { apps := acc.apps, ocp_emails := acc.ocp_emails,
    lender_emails := acc.counts }

/-- The selection predicate of the submission reminder
(`get_applications_to_remind_submit` /
`Application.pending_submission_reminder`): status `ACCEPTED`, `expired_at`
strictly between now and now plus the reminder window, and no prior
`BORROWER_PENDING_SUBMIT_REMINDER` message. -/
def pending_submission_reminder (cfg : AppSettings) (now : Int)
    (msgs : List Message) (a : Application) : Bool :=
  a.status == .ACCEPTED &&
  optGt a.expired_at now &&
  optLe a.expired_at (now + cfg.reminder_days_before_expiration) &&
  !(msgs.any (fun m => m.application_id == a.id &&
      m.type == .BORROWER_PENDING_SUBMIT_REMINDER))

/-! ### Reachable application states

One application's lifecycle: it is created by the application factory (or by
the legacy factory, or copied from a rejected application), and every further
mutation of its row goes through one of the operations above. -/

/-- One mutation of an application's row by the engine. -/
inductive Step (cfg : AppSettings) : Application → Application → Prop where
  | access (now : Int) (a a' : Application) :
      access_scheme now a = .ok a' → Step cfg a a'
  | declined (all : Bool) (now : Int) (a : Application) (b : Borrower)
      (a' : Application) (b' : Borrower) :
      decline all now a b = .ok (a', b') → Step cfg a a'
  | rollback (now : Int) (a : Application) (b : Borrower) (a' : Application)
      (b' : Borrower) :
      rollback_decline now a b = .ok (a', b') → Step cfg a a'
  | submit (now : Int) (a a' : Application) :
      submit_application now a = .ok a' → Step cfg a a'
  | start (now : Int) (a a' : Application) :
      start_application now a = .ok a' → Step cfg a a'
  | requestInfo (now : Int) (a a' : Application) :
      request_information now a = .ok a' → Step cfg a a'
  | completeInfo (now : Int) (a a' : Application) :
      complete_information_request now a = .ok a' → Step cfg a a'
  | approve (now : Int) (a a' : Application) :
      approve_application now a = .ok a' → Step cfg a a'
  | uploadContract (now : Int) (a a' : Application) :
      confirm_upload_contract now a = .ok a' → Step cfg a a'
  | reject (now : Int) (a a' : Application) :
      reject_application now a = .ok a' → Step cfg a a'
  | complete (now : Int) (a a' : Application) :
      complete_application now a = .ok a' → Step cfg a a'
  | lapse (now : Int) (a : Application) : Step cfg a (lapseStep cfg now a)
  | archive (now : Int) (a : Application) :
      Step cfg a (archiveAppRecord now a)

/-- The application states reachable through the engine. -/
inductive Reachable (cfg : AppSettings) : Application → Prop where
  | created (award_id borrower_id : Nat)
      (email legal_identifier source_contract_id : String) (now : Int)
      (s : DB) (a : Application) :
      create_application cfg award_id borrower_id email legal_identifier
        source_contract_id now s = .ok a → Reachable cfg a
  | legacy (award_id borrower_id : Nat)
      (email legal_identifier source_contract_id : String)
      (now days_until_expired : Int) :
      Reachable cfg (create_application_legacy award_id borrower_id email
        legal_identifier source_contract_id now days_until_expired)
  | copied (now : Int) (freshId : Nat) (a a' : Application) :
      Reachable cfg a → copy_application cfg now freshId a = .ok a' →
      Reachable cfg a'
  | step (a a' : Application) :
      Reachable cfg a → Step cfg a a' → Reachable cfg a'

/-- The statuses at or downstream of `ACCEPTED` along the accept path (every
status the state machine reaches only through `access_scheme`). -/
def acceptedOrDownstream : ApplicationStatus → Bool
  | .PENDING => false
  | .DECLINED => false
  | .LAPSED => false
  | _ => true

/-- The exact condition under which one iteration of the SLA sweep sends an
administrator alert for an application: an eligible status, a resolvable
lender, days waiting above the warn fraction of `sla_days`, and days waiting
above the full `sla_days`. -/
def isOverdue (cfg : AppSettings) (lenders : List Lender) (now : Int)
    (a : Application) : Bool :=
  slaEligible a &&
  (match a.lender_id.bind (fun lid => lenders.find? (fun l => l.id == lid)) with
   | some lender =>
     decide (days_waiting_for_lender now a * cfg.progress_den >
       lender.sla_days * cfg.progress_num) &&
     decide (days_waiting_for_lender now a > lender.sla_days)
   | none => false)

/-- The pointwise effect of a sequence of retention iterations on one
application row: each processed candidate whose id matches scrubs the row. -/
def applyArchives (L : List Application) (now : Int) (x : Application) :
    Application :=
  L.foldl (fun y c => if y.id == c.id then archiveAppRecord now y else y) x

/-- The pointwise effect of one retention iteration on one borrower row:
blank it when its id is the candidate's borrower id. -/
def blankAt (bid : Nat) (b : Borrower) : Borrower :=
  if b.id == bid then blankBorrower b else b

/-! ## Theorems -/

/-- Left-cancellation of string concatenation (used for the injectivity of
the modelled identity functions). -/
theorem string_append_left_cancel (p x y : String) (h : p ++ x = p ++ y) :
    x = y := by
  have hd : p.data ++ x.data = p.data ++ y.data := by
    have := congrArg String.data h
    simpa [String.data_append] using this
  have hxy : x.data = y.data := List.append_cancel_left hd
  cases x
  cases y
  exact congrArg String.mk hxy

/-- `get_secret_hash` is injective (as modelled from the spec's
collision-freedom requirement). -/
theorem get_secret_hash_injective (x y : String)
    (h : get_secret_hash x = get_secret_hash y) : x = y :=
  string_append_left_cancel "hash." x y h

/-- `generate_uuid` is injective (as modelled from the spec's stability
requirement). -/
theorem generate_uuid_injective (x y : String)
    (h : generate_uuid x = generate_uuid y) : x = y :=
  string_append_left_cancel "uuid." x y h

/-- The sum of the differences over the pairs built by the upload loop:
the remaining requests pair FIFO with the completions, and when the
completions outnumber the remaining requests the first unmatched completion
pairs with the current time (and the loop breaks). -/
theorem pairUploads_sum (now : Int) :
    ∀ (us rs : List Int),
      ((pairUploads us rs now).map (fun p => p.1 - p.2)).sum =
        ((rs.zip us).map (fun p => p.1 - p.2)).sum +
          (if rs.length < us.length then now - us.getD rs.length 0 else 0) := by
  intro us
  induction us with
  | nil =>
    intro rs
    simp [pairUploads]
  | cons u us ih =>
    intro rs
    cases rs with
    | nil =>
      simp [pairUploads]
    | cons r rs =>
      simp only [pairUploads, List.zip_cons_cons, List.map_cons, List.sum_cons,
        List.length_cons, ih rs]
      have hlt : rs.length + 1 < us.length + 1 ↔ rs.length < us.length := by
        omega
      rcases Nat.lt_or_ge rs.length us.length with h | h
      · simp only [h, hlt.mpr h, if_true, List.getD_cons_succ]
        ring
      · have h1 : ¬ rs.length < us.length := Nat.not_lt.mpr h
        have h2 : ¬ rs.length + 1 < us.length + 1 := by omega
        simp [h1, h2]

/-- C4, counterexample: with `lender_started_at = 0`, current time 10, a
single information request at time 2 and no upload completions, the code
computes 2 days (it pairs the request with `lender_started_at`), while the
claimed pairing (a request with no matching completion pairs against the
current time) yields 8 days, whichever sign convention is used for the
day-delta. -/
theorem cex_C4_pairing :
    get_application_days_passed 0 10 [2] [] = 2 ∧
    spec_days_waiting 10 [2] [] = 8 ∧
    get_application_days_passed 0 10 [2] [] ≠ spec_days_waiting 10 [2] [] ∧
    get_application_days_passed 0 10 [2] [] ≠ -spec_days_waiting 10 [2] [] := by
  refine ⟨by decide, by decide, by decide, by decide⟩

/-- C4, amended: the days-waiting computation seeds the pairing with (first
information request, `lender_started_at`) — or (current time,
`lender_started_at`) when no request exists — then pairs each later request
FIFO with the upload completions; a completion left over after the requests
run out pairs against the current time (and ends the pairing, so requests
beyond the completions are dropped); the result is the sum of
(first component - second component) over the pairs. -/
theorem thm_C4_days_passed_characterization (start now : Int)
    (fiRequests us : List Int) :
    get_application_days_passed start now fiRequests us =
      (match fiRequests with
       | [] => now - start
       | r :: _ => r - start) +
      ((fiRequests.tail.zip us).map (fun p => p.1 - p.2)).sum +
      (if fiRequests.tail.length < us.length then
        now - us.getD fiRequests.tail.length 0
       else 0) := by
  cases fiRequests with
  | nil =>
    simp only [get_application_days_passed, pairUploads_sum, List.map_cons,
      List.sum_cons, List.tail_nil, List.zip_nil_left, List.map_nil,
      List.sum_nil, List.length_nil]
    ring
  | cons r rs =>
    simp only [get_application_days_passed, pairUploads_sum, List.map_cons,
      List.sum_cons, List.tail_cons]
    ring

/-- C9, counterexample: in the legacy
`background_processes/application_utils.py` factory the access token is
`generate_uuid(legal_identifier)`, so two applications of the same borrower
(legal identifier "a") for two different awards (contract ids "b" and "c")
receive the same token, not distinct ones. -/
theorem cex_C9_legacy_token :
    (create_application_legacy 1 1 "e" "a" "b" 0 7).uuid =
      (create_application_legacy 2 1 "e" "a" "c" 0 7).uuid ∧
    ("b" : String) ≠ "c" := by
  exact ⟨rfl, by decide⟩

/-- C9, amended: `get_secret_hash` is deterministic and collision-free (as
modelled from the spec); in `app/background_processes/application_utils.py`
the access token is derived from the application dedup key, so the same
application always yields the same token and two applications of the same
borrower for different awards get distinct tokens; in the legacy
`background_processes/application_utils.py` the token is derived from the
legal identifier alone, so the same borrower receives the same token for
every award. -/
theorem thm_C9_identity (x y legal c1 c2 : String)
    (hxy : x ≠ y) (hc : c1 ≠ c2) :
    get_secret_hash x = get_secret_hash x ∧
    get_secret_hash x ≠ get_secret_hash y ∧
    (∀ (cfg : AppSettings) (award_id borrower_id : Nat) (email : String)
        (now : Int) (s : DB) (a : Application),
      create_application cfg award_id borrower_id email legal c1 now s =
        .ok a →
      a.uuid = generate_uuid (dedupKey legal c1)) ∧
    generate_uuid (dedupKey legal c1) ≠ generate_uuid (dedupKey legal c2) ∧
    (∀ (aid bid aid2 bid2 : Nat) (e e2 : String) (now now2 d d2 : Int),
      (create_application_legacy aid bid e legal c1 now d).uuid =
        (create_application_legacy aid2 bid2 e2 legal c2 now2 d2).uuid) := by
  refine ⟨rfl, ?_, ?_, ?_, ?_⟩
  · intro h
    exact hxy (get_secret_hash_injective x y h)
  · intro cfg award_id borrower_id email now s a h
    unfold create_application at h
    simp only at h
    cases hfind : s.applications.find?
        (fun x => x.award_borrower_identifier == get_secret_hash (legal ++ c1)) with
    | some v =>
      rw [hfind] at h
      cases h
    | none =>
      rw [hfind] at h
      simp only [Except.ok.injEq] at h
      subst h
      rfl
  · intro h
    have h1 := generate_uuid_injective _ _ h
    have h2 := get_secret_hash_injective _ _ h1
    exact hc (string_append_left_cancel legal c1 c2 h2)
  · intro aid bid aid2 bid2 e e2 now now2 d d2
    rfl

/-- C9, witness for the amended theorem at concrete seeds. -/
theorem thm_C9_identity_witness :
    get_secret_hash "s1" = get_secret_hash "s1" ∧
    get_secret_hash "s1" ≠ get_secret_hash "s2" ∧
    (∀ (cfg : AppSettings) (award_id borrower_id : Nat) (email : String)
        (now : Int) (s : DB) (a : Application),
      create_application cfg award_id borrower_id email "a" "b" now s =
        .ok a →
      a.uuid = generate_uuid (dedupKey "a" "b")) ∧
    generate_uuid (dedupKey "a" "b") ≠ generate_uuid (dedupKey "a" "c") ∧
    (∀ (aid bid aid2 bid2 : Nat) (e e2 : String) (now now2 d d2 : Int),
      (create_application_legacy aid bid e "a" "b" now d).uuid =
        (create_application_legacy aid2 bid2 e2 "a" "c" now2 d2).uuid) :=
  thm_C9_identity "s1" "s2" "a" "b" "c" (by decide) (by decide)

/-- C7, confirmed: a non-archived `PENDING` application whose creation time
is older than the lapsing threshold is lapsed by one run of
`update_applications_to_lapsed` (status `LAPSED`, `application_lapsed_at`
set to the sweep time), and a second run — at any later time — leaves the
lapsed row unchanged, because the selection predicate only accepts
`PENDING`, `ACCEPTED` and `INFORMATION_REQUESTED`. -/
theorem thm_C7_lapsing (cfg : AppSettings) (now now2 : Int)
    (apps : List Application) (a : Application)
    (hmem : a ∈ apps) (hstatus : a.status = .PENDING)
    (hold : a.created_at + cfg.days_to_change_to_lapsed < now)
    (harch : a.archived_at = none) :
    lapseStep cfg now a =
      { a with status := .LAPSED, application_lapsed_at := some now } ∧
    ({ a with status := .LAPSED, application_lapsed_at := some now } :
        Application) ∈ update_applications_to_lapsed cfg now apps ∧
    lapseStep cfg now2
        { a with status := .LAPSED, application_lapsed_at := some now } =
      { a with status := .LAPSED, application_lapsed_at := some now } := by
  have hsel : lapseable cfg now a = true := by
    simp [lapseable, hstatus, harch, hold]
  have h1 : lapseStep cfg now a =
      { a with status := .LAPSED, application_lapsed_at := some now } := by
    simp [lapseStep, hsel]
  refine ⟨h1, ?_, ?_⟩
  · have := List.mem_map_of_mem (lapseStep cfg now) hmem
    rw [h1] at this
    exact this
  · simp [lapseStep, lapseable]

/-- C7, witness: a concrete stale `PENDING` application. -/
theorem thm_C7_lapsing_witness :
    lapseStep ({} : AppSettings) 100 ({ id := 1, created_at := 0 } : Application) =
      ({ id := 1, created_at := 0, status := .LAPSED,
         application_lapsed_at := some 100 } : Application) ∧
    ({ id := 1, created_at := 0, status := .LAPSED,
       application_lapsed_at := some 100 } : Application) ∈
      update_applications_to_lapsed ({} : AppSettings) 100
        [({ id := 1, created_at := 0 } : Application)] ∧
    lapseStep ({} : AppSettings) 200
        ({ id := 1, created_at := 0, status := .LAPSED,
           application_lapsed_at := some 100 } : Application) =
      ({ id := 1, created_at := 0, status := .LAPSED,
         application_lapsed_at := some 100 } : Application) :=
  thm_C7_lapsing ({} : AppSettings) 100 200
    [({ id := 1, created_at := 0 } : Application)]
    ({ id := 1, created_at := 0 } : Application) (by decide) rfl (by decide) rfl

/-- C2, confirmed: each lender transition endpoint guards on the persisted
status — `reject_application` on the set written in its body (`STARTED` or
`CONTRACT_UPLOADED`, the two rejectable states of the spec's state graph),
`complete_application` on exactly `CONTRACT_UPLOADED` — and on a mismatch
fails with the HTTP-409-equivalent typed error while the transactional unit
of work leaves the application completely unchanged. -/
theorem thm_C2_strict_status_guard (now : Int) (a : Application) :
    ((a.status ≠ .STARTED ∧ a.status ≠ .CONTRACT_UPLOADED) →
      transactional (reject_application now) a =
        (.error { status_code := 409 }, a)) ∧
    (a.status ≠ .CONTRACT_UPLOADED →
      transactional (complete_application now) a =
        (.error { status_code := 409 }, a)) ∧
    (∀ a', reject_application now a = .ok a' →
      (a.status = .STARTED ∨ a.status = .CONTRACT_UPLOADED) ∧
        a'.status = .REJECTED) ∧
    (∀ a', complete_application now a = .ok a' →
      a.status = .CONTRACT_UPLOADED ∧ a'.status = .COMPLETED) := by
  refine ⟨?_, ?_, ?_, ?_⟩
  · rintro ⟨h1, h2⟩
    have hcond : ¬ (a.status = .CONTRACT_UPLOADED ∨ a.status = .STARTED) := by
      rintro (h | h)
      · exact h2 h
      · exact h1 h
    simp [transactional, reject_application, hcond]
  · intro h
    simp [transactional, complete_application, check_application_status, h]
  · intro a' h
    unfold reject_application at h
    by_cases hs : a.status = .CONTRACT_UPLOADED ∨ a.status = .STARTED
    · rw [if_pos hs] at h
      simp only [Except.ok.injEq] at h
      subst h
      exact ⟨hs.symm, rfl⟩
    · rw [if_neg hs] at h
      cases h
  · intro a' h
    unfold complete_application check_application_status at h
    by_cases hs : a.status = .CONTRACT_UPLOADED
    · rw [if_pos hs] at h
      simp only [Except.ok.injEq] at h
      subst h
      exact ⟨hs, rfl⟩
    · rw [if_neg hs] at h
      cases h

/-- C2, witness: a `PENDING` application is rejected by both endpoints with
the typed 409 error and stays unchanged. -/
theorem thm_C2_strict_status_guard_witness :
    transactional (reject_application 0) { status := .PENDING } =
      (.error { status_code := 409 }, ({ status := .PENDING } : Application)) ∧
    transactional (complete_application 0) { status := .PENDING } =
      (.error { status_code := 409 }, ({ status := .PENDING } : Application)) :=
  ⟨(thm_C2_strict_status_guard 0 { status := .PENDING }).1 (by decide),
   (thm_C2_strict_status_guard 0 { status := .PENDING }).2.1 (by decide)⟩

/-- A successful `_create_complete_application` appends exactly one
application, whose dedup key is the secret hash of the record's legal
identifier and source contract id, and appends an award with the record's
source contract id. -/
theorem create_complete_application_ok (cfg : AppSettings) (now : Int)
    (e : SourceEntry) (s s' : DB)
    (h : create_complete_application cfg now e s = .ok s') :
    (∃ app : Application,
      s'.applications = s.applications ++ [app] ∧
      app.award_borrower_identifier =
        dedupKey e.legal_identifier e.source_contract_id) ∧
    s'.awards.any
      (fun aw => aw.source_contract_id == e.source_contract_id) = true := by
  unfold create_complete_application at h
  cases h1 : create_award_from_data_source e s with
  | error r =>
    rw [h1] at h
    cases h
  | ok award =>
    rw [h1] at h
    simp only at h
    have haward : award.source_contract_id = e.source_contract_id := by
      unfold create_award_from_data_source at h1
      split at h1
      · cases h1
      · simp only [Except.ok.injEq] at h1
        subst h1
        rfl
    cases h2 : s.borrowers.find?
        (fun b => b.borrower_identifier == get_secret_hash (get_supplier_id e)) with
    | some b =>
      rw [h2] at h
      simp only at h
      by_cases h3 : b.status = .DECLINE_OPPORTUNITIES
      · rw [if_pos h3] at h
        cases h
      · rw [if_neg h3] at h
        simp only at h
        split at h
        · cases h
        · rename_i application h4
          simp only [Except.ok.injEq] at h
          subst h
          refine ⟨⟨application, rfl, ?_⟩, ?_⟩
          · unfold create_application at h4
            simp only at h4
            split at h4
            · cases h4
            · simp only [Except.ok.injEq] at h4
              subst h4
              simp [dedupKey, get_borrower_data, haward]
          · simp [haward]
    | none =>
      rw [h2] at h
      simp only at h
      split at h
      · cases h
      · rename_i application h4
        simp only [Except.ok.injEq] at h
        subst h
        refine ⟨⟨application, rfl, ?_⟩, ?_⟩
        · unfold create_application at h4
          simp only at h4
          split at h4
          · cases h4
          · simp only [Except.ok.injEq] at h4
            subst h4
            simp [dedupKey, get_borrower_data, haward]
        · simp [haward]

/-- A record whose award natural key is already present is skipped by
`_create_complete_application`. -/
theorem create_complete_application_award_exists (cfg : AppSettings)
    (now : Int) (e : SourceEntry) (s : DB)
    (h : s.awards.any
      (fun aw => aw.source_contract_id == e.source_contract_id) = true) :
    create_complete_application cfg now e s = .error .awardExists := by
  unfold create_complete_application create_award_from_data_source
  rw [if_pos h]

/-- If an application with the record's dedup key already exists,
`create_application` skips instead of creating a second one. -/
theorem create_application_skips_duplicate (cfg : AppSettings)
    (award_id borrower_id : Nat) (email legal_identifier source_contract_id :
    String) (now : Int) (s : DB)
    (h : ∃ a ∈ s.applications, a.award_borrower_identifier =
      dedupKey legal_identifier source_contract_id) :
    create_application cfg award_id borrower_id email legal_identifier
      source_contract_id now s = .error .applicationExists := by
  unfold create_application
  simp only
  cases hfind : s.applications.find? (fun a =>
      a.award_borrower_identifier ==
        get_secret_hash (legal_identifier ++ source_contract_id)) with
  | some v => rfl
  | none =>
    exfalso
    obtain ⟨a, hmem, hkey⟩ := h
    have := List.find?_eq_none.mp hfind a hmem
    simp only [beq_iff_eq] at this
    exact this hkey

/-- C1, confirmed: starting from a state with no application for the
record's dedup key, processing the same source record twice (the two runs of
the sweep over the same window) leaves at most one application with that
key; and application creation first looks the dedup key up and raises the
duplicate skip instead of creating a second application whenever one
exists. -/
theorem thm_C1_ingestion_idempotent (cfg : AppSettings) (now now2 : Int)
    (e : SourceEntry) (s : DB)
    (h0 : countKey s (dedupKey e.legal_identifier e.source_contract_id) = 0) :
    countKey (processEntry cfg now2 e (processEntry cfg now e s))
      (dedupKey e.legal_identifier e.source_contract_id) ≤ 1 ∧
    (∀ (award_id borrower_id : Nat) (email : String) (s2 : DB),
      (∃ a ∈ s2.applications, a.award_borrower_identifier =
        dedupKey e.legal_identifier e.source_contract_id) →
      create_application cfg award_id borrower_id email e.legal_identifier
        e.source_contract_id now2 s2 = .error .applicationExists) := by
  constructor
  · have key := dedupKey e.legal_identifier e.source_contract_id
    have hcount : ∀ (t : Int) (u : DB),
        create_complete_application cfg t e u = .ok
          (processEntry cfg t e u) ∨ processEntry cfg t e u = u := by
      intro t u
      unfold processEntry
      cases hr : create_complete_application cfg t e u with
      | ok w => exact Or.inl rfl
      | error r => exact Or.inr rfl
    have honecount : ∀ (t : Int) (u u' : DB),
        create_complete_application cfg t e u = .ok u' →
        countKey u' (dedupKey e.legal_identifier e.source_contract_id) =
          countKey u (dedupKey e.legal_identifier e.source_contract_id) + 1 := by
      intro t u u' hok
      obtain ⟨⟨app, happs, hkey⟩, _⟩ :=
        create_complete_application_ok cfg t e u u' hok
      unfold countKey
      rw [happs]
      simp [List.filter_append, hkey]
    rcases hcount now s with h1 | h1
    · have hc1 := honecount now s _ h1
      rw [h0] at hc1
      obtain ⟨_, haw⟩ := create_complete_application_ok cfg now e s _ h1
      have h2 := create_complete_application_award_exists cfg now2 e
        (processEntry cfg now e s) haw
      have h3 : processEntry cfg now2 e (processEntry cfg now e s) =
          processEntry cfg now e s := by
        show (match create_complete_application cfg now2 e
          (processEntry cfg now e s) with
          | .ok s' => s'
          | .error _ => processEntry cfg now e s) = processEntry cfg now e s
        rw [h2]
      rw [h3, hc1]
    · rw [h1]
      rcases hcount now2 s with h2 | h2
      · have hc2 := honecount now2 s _ h2
        rw [h0] at hc2
        rw [hc2]
      · rw [h2, h0]
        exact Nat.zero_le 1
  · intro award_id borrower_id email s2 h
    exact create_application_skips_duplicate cfg award_id borrower_id email
      e.legal_identifier e.source_contract_id now2 s2 h

/-- C1, witness: a concrete record processed twice from the empty state. -/
theorem thm_C1_ingestion_idempotent_witness :
    countKey (processEntry ({} : AppSettings) 1
        ({ supplier_id := "sup", source_contract_id := "c",
           legal_identifier := "l" } : SourceEntry)
        (processEntry ({} : AppSettings) 0
          ({ supplier_id := "sup", source_contract_id := "c",
             legal_identifier := "l" } : SourceEntry) ({} : DB)))
      (dedupKey "l" "c") ≤ 1 :=
  (thm_C1_ingestion_idempotent ({} : AppSettings) 0 1
    ({ supplier_id := "sup", source_contract_id := "c",
       legal_identifier := "l" } : SourceEntry) ({} : DB) rfl).1

/-- A skipped record leaves the state unchanged (`handle_skipped_award`
rolls the record's transaction back). -/
theorem processEntry_error (cfg : AppSettings) (now : Int) (e : SourceEntry)
    (s : DB) (r : SkipReason)
    (h : create_complete_application cfg now e s = .error r) :
    processEntry cfg now e s = s := by
  unfold processEntry
  rw [h]

/-- A record whose existing borrower opted out of all opportunities is
skipped with the `borrowerOptedOut` reason when its award is new. -/
theorem create_complete_application_opted_out (cfg : AppSettings) (now : Int)
    (e : SourceEntry) (s : DB) (b : Borrower)
    (hfind : s.borrowers.find? (fun x => x.borrower_identifier ==
      get_secret_hash (get_supplier_id e)) = some b)
    (hdecl : b.status = .DECLINE_OPPORTUNITIES)
    (hnoaward : s.awards.any
      (fun aw => aw.source_contract_id == e.source_contract_id) = false) :
    create_complete_application cfg now e s = .error .borrowerOptedOut := by
  unfold create_complete_application create_award_from_data_source
  rw [hnoaward]
  simp only [Bool.false_eq_true, if_false, hfind, hdecl, if_pos]

/-- A record whose existing borrower opted out of all opportunities is
always skipped (with the opt-out reason, or earlier with the duplicate-award
reason). -/
theorem create_complete_application_opted_out_skips (cfg : AppSettings)
    (now : Int) (e : SourceEntry) (s : DB) (b : Borrower)
    (hfind : s.borrowers.find? (fun x => x.borrower_identifier ==
      get_secret_hash (get_supplier_id e)) = some b)
    (hdecl : b.status = .DECLINE_OPPORTUNITIES) :
    ∃ r, create_complete_application cfg now e s = .error r := by
  by_cases haw : s.awards.any
      (fun aw => aw.source_contract_id == e.source_contract_id) = true
  · exact ⟨.awardExists,
      create_complete_application_award_exists cfg now e s haw⟩
  · exact ⟨.borrowerOptedOut,
      create_complete_application_opted_out cfg now e s b hfind hdecl
        (by simpa using haw)⟩

/-- C6, confirmed: a record missing one of the required natural-key fields
aborts the whole sweep right there — the state is exactly the one produced
by the preceding records and the remaining records (of any page) are never
processed — while a record whose existing borrower opted out of all
opportunities is a per-record skip (`SkippedAwardError`, with the opt-out
reason when the award is new) after which the sweep continues with the next
record unchanged. -/
theorem thm_C6_error_taxonomy (cfg : AppSettings) (now : Int) :
    (∀ (good : List SourceEntry) (bad : SourceEntry)
        (rest : List SourceEntry) (s : DB),
      (∀ x ∈ good, (x.has_id_del_portafolio && x.has_nit) = true) →
      (bad.has_id_del_portafolio && bad.has_nit) = false →
      processEntries cfg now (good ++ bad :: rest) s =
        .aborted (good.foldl (fun st x => processEntry cfg now x st) s)) ∧
    (∀ (e : SourceEntry) (rest : List SourceEntry) (s : DB) (b : Borrower),
      (e.has_id_del_portafolio && e.has_nit) = true →
      s.borrowers.find? (fun x => x.borrower_identifier ==
        get_secret_hash (get_supplier_id e)) = some b →
      b.status = .DECLINE_OPPORTUNITIES →
      (∃ r, create_complete_application cfg now e s = .error r) ∧
      (s.awards.any
          (fun aw => aw.source_contract_id == e.source_contract_id) = false →
        create_complete_application cfg now e s = .error .borrowerOptedOut) ∧
      processEntries cfg now (e :: rest) s = processEntries cfg now rest s) := by
  constructor
  · intro good
    induction good with
    | nil =>
      intro bad rest s _ hbad
      simp only [List.nil_append, List.foldl_nil, processEntries, hbad,
        Bool.false_eq_true, if_false]
    | cons g good ih =>
      intro bad rest s hgood hbad
      have hg : (g.has_id_del_portafolio && g.has_nit) = true :=
        hgood g (List.mem_cons_self g good)
      simp only [List.cons_append, processEntries, hg, if_true,
        List.foldl_cons]
      exact ih bad rest (processEntry cfg now g s)
        (fun x hx => hgood x (List.mem_cons_of_mem g hx)) hbad
  · intro e rest s b hreq hfind hdecl
    obtain ⟨r, hr⟩ :=
      create_complete_application_opted_out_skips cfg now e s b hfind hdecl
    refine ⟨⟨r, hr⟩, ?_, ?_⟩
    · intro hnoaward
      exact create_complete_application_opted_out cfg now e s b hfind hdecl
        hnoaward
    · have hunch := processEntry_error cfg now e s r hr
      simp only [processEntries, hreq, if_true, hunch]

/-- C6, witness: a concrete sweep with one good record, one record missing
the `nit` field and one trailing record; and a concrete opted-out borrower
record. -/
theorem thm_C6_error_taxonomy_witness :
    processEntries ({} : AppSettings) 0
        ([({ supplier_id := "s1", source_contract_id := "c1",
             legal_identifier := "l1" } : SourceEntry)] ++
          ({ has_nit := false } : SourceEntry) ::
            [({ supplier_id := "s2", source_contract_id := "c2",
                legal_identifier := "l2" } : SourceEntry)]) ({} : DB) =
      .aborted
        ([({ supplier_id := "s1", source_contract_id := "c1",
             legal_identifier := "l1" } : SourceEntry)].foldl
          (fun st x => processEntry ({} : AppSettings) 0 x st) ({} : DB)) ∧
    processEntries ({} : AppSettings) 0
        [({ supplier_id := "sup", source_contract_id := "c" } : SourceEntry)]
        ({ borrowers := [({ id := 1, borrower_identifier := "hash.sup", status := .DECLINE_OPPORTUNITIES } : Borrower)] } : DB) =
      processEntries ({} : AppSettings) 0 []
        ({ borrowers := [({ id := 1, borrower_identifier := "hash.sup", status := .DECLINE_OPPORTUNITIES } : Borrower)] } : DB) :=
  ⟨(thm_C6_error_taxonomy ({} : AppSettings) 0).1
      [({ supplier_id := "s1", source_contract_id := "c1",
          legal_identifier := "l1" } : SourceEntry)]
      ({ has_nit := false } : SourceEntry)
      [({ supplier_id := "s2", source_contract_id := "c2",
          legal_identifier := "l2" } : SourceEntry)] ({} : DB)
      (by decide) (by decide),
   ((thm_C6_error_taxonomy ({} : AppSettings) 0).2
      ({ supplier_id := "sup", source_contract_id := "c" } : SourceEntry) []
      ({ borrowers := [({ id := 1, borrower_identifier := "hash.sup", status := .DECLINE_OPPORTUNITIES } : Borrower)] } : DB)
      ({ id := 1, borrower_identifier := "hash.sup",
         status := .DECLINE_OPPORTUNITIES } : Borrower)
      (by decide) (by decide) rfl).2.2⟩

/-- C8, confirmed: declining a live `PENDING` application with
`decline_all = true` marks the owning borrower `DECLINE_OPPORTUNITIES` with
its `declined_at` recorded, and afterwards any ingested record that resolves
to that borrower (a new award of any source contract id) is skipped with the
`borrowerOptedOut` reason, leaving the state — in particular the set of
applications — unchanged. -/
theorem thm_C8_decline_all_blocks (cfg : AppSettings) (now : Int)
    (a : Application) (b : Borrower)
    (hstatus : a.status = .PENDING)
    (hnotexp : check_is_application_expired a now = .ok ()) :
    decline true now a b =
      .ok ({ a with status := .DECLINED, borrower_declined_at := some now },
           { b with status := .DECLINE_OPPORTUNITIES,
                    declined_at := some now }) ∧
    ({ b with status := .DECLINE_OPPORTUNITIES,
              declined_at := some now } : Borrower).status =
      .DECLINE_OPPORTUNITIES ∧
    (∀ (now2 : Int) (e : SourceEntry) (s2 : DB) (rest : List SourceEntry),
      s2.borrowers.find? (fun x => x.borrower_identifier ==
        get_secret_hash (get_supplier_id e)) =
        some { b with status := .DECLINE_OPPORTUNITIES,
                      declined_at := some now } →
      s2.awards.any
        (fun aw => aw.source_contract_id == e.source_contract_id) = false →
      (e.has_id_del_portafolio && e.has_nit) = true →
      create_complete_application cfg now2 e s2 = .error .borrowerOptedOut ∧
      processEntry cfg now2 e s2 = s2 ∧
      processEntries cfg now2 (e :: rest) s2 =
        processEntries cfg now2 rest s2) := by
  refine ⟨?_, rfl, ?_⟩
  · unfold decline
    rw [hnotexp]
    simp only [check_application_status, hstatus, if_pos]
  · intro now2 e s2 rest hfind hnoaward hreq
    have herr := create_complete_application_opted_out cfg now2 e s2 _
      hfind rfl hnoaward
    have hunch := processEntry_error cfg now2 e s2 _ herr
    refine ⟨herr, hunch, ?_⟩
    simp only [processEntries, hreq, if_true, hunch]

/-- C8, witness: a concrete decline-all followed by ingesting a record of
the same supplier. -/
theorem thm_C8_decline_all_blocks_witness :
    decline true 5 ({ id := 9, status := .PENDING } : Application)
        ({ id := 3, borrower_identifier := "hash.sup" } : Borrower) =
      .ok (({ id := 9, status := .DECLINED,
              borrower_declined_at := some 5 } : Application),
           ({ id := 3, borrower_identifier := "hash.sup",
              status := .DECLINE_OPPORTUNITIES,
              declined_at := some 5 } : Borrower)) ∧
    processEntry ({} : AppSettings) 6
        ({ supplier_id := "sup", source_contract_id := "c9" } : SourceEntry)
        ({ borrowers := [({ id := 3, borrower_identifier := "hash.sup", status := .DECLINE_OPPORTUNITIES, declined_at := some 5 } : Borrower)] } : DB) =
      ({ borrowers := [({ id := 3, borrower_identifier := "hash.sup", status := .DECLINE_OPPORTUNITIES, declined_at := some 5 } : Borrower)] } : DB) := by
  have h := thm_C8_decline_all_blocks ({} : AppSettings) 5
    ({ id := 9, status := .PENDING } : Application)
    ({ id := 3, borrower_identifier := "hash.sup" } : Borrower) rfl rfl
  exact ⟨h.1,
    (h.2.2 6 ({ supplier_id := "sup", source_contract_id := "c9" } : SourceEntry)
      ({ borrowers := [({ id := 3, borrower_identifier := "hash.sup", status := .DECLINE_OPPORTUNITIES, declined_at := some 5 } : Borrower)] } : DB)
      [] rfl rfl rfl).2.1⟩

/-- One iteration of the SLA sweep loop, characterized: the processed
application has `overdued_at` set exactly when it is overdue, and an
administrator alert is appended exactly for an overdue application. -/
theorem slaStep_characterization (cfg : AppSettings) (lenders : List Lender)
    (now : Int) (acc : SlaAcc) (a : Application) :
    (slaStep cfg lenders now acc a).apps = acc.apps ++
      [if isOverdue cfg lenders now a then { a with overdued_at := some now }
       else a] ∧
    (slaStep cfg lenders now acc a).ocp_emails = acc.ocp_emails ++
      (if isOverdue cfg lenders now a then [a.id] else []) := by
  unfold slaStep isOverdue
  by_cases he : slaEligible a = true
  · rw [if_pos he]
    cases hl : a.lender_id.bind (fun lid => lenders.find? (fun l => l.id == lid)) with
    | none =>
      simp [he, hl]
    | some lender =>
      simp only [he, hl, Bool.true_and]
      by_cases h1 : days_waiting_for_lender now a * cfg.progress_den >
          lender.sla_days * cfg.progress_num
      · rw [if_pos h1]
        by_cases h2 : days_waiting_for_lender now a > lender.sla_days
        · rw [if_pos h2]
          simp [h1, h2]
        · rw [if_neg h2]
          simp [h1, h2]
      · rw [if_neg h1]
        simp [h1]
  · rw [if_neg he]
    have he' : slaEligible a = false := by
      cases h : slaEligible a
      · rfl
      · exact absurd h he
    simp [he']

/-- The SLA sweep loop over a whole application list, relative to an
arbitrary starting accumulator. -/
theorem sla_fold_characterization (cfg : AppSettings) (lenders : List Lender)
    (now : Int) :
    ∀ (apps : List Application) (acc : SlaAcc),
      (apps.foldl (slaStep cfg lenders now) acc).ocp_emails =
        acc.ocp_emails ++
          (apps.filter (isOverdue cfg lenders now)).map (fun a => a.id) ∧
      (apps.foldl (slaStep cfg lenders now) acc).apps =
        acc.apps ++ apps.map (fun a =>
          if isOverdue cfg lenders now a then { a with overdued_at := some now }
          else a) := by
  intro apps
  induction apps with
  | nil =>
    intro acc
    simp
  | cons a apps ih =>
    intro acc
    obtain ⟨happs, hocp⟩ := slaStep_characterization cfg lenders now acc a
    simp only [List.foldl_cons, List.filter_cons, List.map_cons]
    obtain ⟨ih1, ih2⟩ := ih (slaStep cfg lenders now acc a)
    constructor
    · rw [ih1, hocp]
      by_cases hov : isOverdue cfg lenders now a = true
      · simp [hov]
      · have hov' : isOverdue cfg lenders now a = false := by
          cases h : isOverdue cfg lenders now a
          · rfl
          · exact absurd h hov
        simp [hov']
    · rw [ih2, happs]
      simp

/-- `filter` commutes with `map` (specialized helper). -/
theorem filter_map_comm (f : Application → Application)
    (p : Application → Bool) :
    ∀ l : List Application,
      (l.map f).filter p = (l.filter (fun x => p (f x))).map f := by
  intro l
  induction l with
  | nil => rfl
  | cons x l ih =>
    simp only [List.map_cons, List.filter_cons]
    by_cases h : p (f x) = true
    · simp [h, ih]
    · have h' : p (f x) = false := by
        cases hx : p (f x)
        · rfl
        · exact absurd hx h
      simp [h', ih]

/-- Setting `overdued_at` changes neither the sweep's eligibility check nor
the days-waiting computation, so the overdue condition is insensitive to
it. -/
theorem isOverdue_ignores_overdued (cfg : AppSettings)
    (lenders : List Lender) (now : Int) (a : Application) (x : Option Int) :
    isOverdue cfg lenders now { a with overdued_at := x } =
      isOverdue cfg lenders now a := rfl

/-- C3, counterexample: a `STARTED` application eleven days with its lender
(`sla_days = 10`, warn fraction 4/5): the first run of
`sla_overdue_applications` sets `overdued_at` and sends one administrator
alert, and a second run in the same day — although `overdued_at` is already
set on every swept application — sends a second administrator alert for the
same application: the sweep has no guard on `overdued_at`. -/
theorem cex_C3_second_run_alerts_again :
    (sla_overdue_applications ({} : AppSettings)
        [({ id := 1, sla_days := 10 } : Lender)] 11
        [({ id := 7, status := .STARTED, lender_id := some 1,
            lender_started_at := some 0 } : Application)]).ocp_emails = [7] ∧
    (∀ x ∈ (sla_overdue_applications ({} : AppSettings)
        [({ id := 1, sla_days := 10 } : Lender)] 11
        [({ id := 7, status := .STARTED, lender_id := some 1,
            lender_started_at := some 0 } : Application)]).apps,
      x.overdued_at = some 11) ∧
    (sla_overdue_applications ({} : AppSettings)
        [({ id := 1, sla_days := 10 } : Lender)] 11
        (sla_overdue_applications ({} : AppSettings)
          [({ id := 1, sla_days := 10 } : Lender)] 11
          [({ id := 7, status := .STARTED, lender_id := some 1,
              lender_started_at := some 0 } : Application)]).apps).ocp_emails =
      [7] := by
  refine ⟨by decide, by decide, by decide⟩

/-- C3, amended: each run of the SLA sweep sends one administrator alert per
overdue application (eligible status, days waiting beyond the lender's full
`sla_days`) and sets its `overdued_at` to the sweep time; the sweep does not
guard on `overdued_at` being already set, so a second run in the same day
sends the same administrator alerts again. -/
theorem thm_C3_overdue_alert_per_run (cfg : AppSettings)
    (lenders : List Lender) (now : Int) (apps : List Application) :
    (sla_overdue_applications cfg lenders now apps).ocp_emails =
      (apps.filter (isOverdue cfg lenders now)).map (fun a => a.id) ∧
    (sla_overdue_applications cfg lenders now apps).apps =
      apps.map (fun a =>
        if isOverdue cfg lenders now a then { a with overdued_at := some now }
        else a) ∧
    (sla_overdue_applications cfg lenders now
        (sla_overdue_applications cfg lenders now apps).apps).ocp_emails =
      (apps.filter (isOverdue cfg lenders now)).map (fun a => a.id) := by
  obtain ⟨h1, h2⟩ := sla_fold_characterization cfg lenders now apps {}
  have e1 : (sla_overdue_applications cfg lenders now apps).ocp_emails =
      (apps.filter (isOverdue cfg lenders now)).map (fun a => a.id) := by
    unfold sla_overdue_applications
    simpa using h1
  have e2 : (sla_overdue_applications cfg lenders now apps).apps =
      apps.map (fun a =>
        if isOverdue cfg lenders now a then { a with overdued_at := some now }
        else a) := by
    unfold sla_overdue_applications
    simpa using h2
  refine ⟨e1, e2, ?_⟩
  obtain ⟨h1', _⟩ := sla_fold_characterization cfg lenders now
    (sla_overdue_applications cfg lenders now apps).apps {}
  have e3 : (sla_overdue_applications cfg lenders now
      (sla_overdue_applications cfg lenders now apps).apps).ocp_emails =
      ((sla_overdue_applications cfg lenders now apps).apps.filter
        (isOverdue cfg lenders now)).map (fun a => a.id) := by
    unfold sla_overdue_applications
    simpa using h1'
  rw [e3, e2, filter_map_comm]
  have hsame : (fun x => isOverdue cfg lenders now
      (if isOverdue cfg lenders now x then { x with overdued_at := some now }
       else x)) = isOverdue cfg lenders now := by
    funext x
    by_cases h : isOverdue cfg lenders now x = true
    · rw [if_pos h, isOverdue_ignores_overdued, h]
    · rw [if_neg h]
  rw [hsame, List.map_map]
  apply List.map_congr_left
  intro a ha
  have : isOverdue cfg lenders now a = true := List.of_mem_filter ha
  simp [Function.comp, this]

/-- Inversion of a successful `create_application`: the new row is
`PENDING`. -/
theorem create_application_ok_status (cfg : AppSettings)
    (award_id borrower_id : Nat)
    (email legal_identifier source_contract_id : String) (now : Int)
    (s : DB) (a : Application)
    (h : create_application cfg award_id borrower_id email legal_identifier
      source_contract_id now s = .ok a) : a.status = .PENDING := by
  unfold create_application at h
  simp only at h
  split at h
  · cases h
  · simp only [Except.ok.injEq] at h
    subst h
    rfl

/-- Inversion of a successful `access_scheme`. -/
theorem access_scheme_ok (now : Int) (a a' : Application)
    (h : access_scheme now a = .ok a') :
    a'.status = .ACCEPTED ∧ a'.expired_at = none := by
  unfold access_scheme at h
  split at h
  · cases h
  · split at h
    · cases h
    · simp only [Except.ok.injEq] at h
      subst h
      exact ⟨rfl, rfl⟩

/-- Inversion of a successful `decline` on the application side. -/
theorem decline_ok (all : Bool) (now : Int) (a : Application) (b : Borrower)
    (a' : Application) (b' : Borrower)
    (h : decline all now a b = .ok (a', b')) : a'.status = .DECLINED := by
  unfold decline at h
  split at h
  · cases h
  · split at h
    · cases h
    · simp only [Except.ok.injEq, Prod.mk.injEq] at h
      rw [← h.1]

/-- Inversion of a successful `rollback_decline` on the application side. -/
theorem rollback_decline_ok (now : Int) (a : Application) (b : Borrower)
    (a' : Application) (b' : Borrower)
    (h : rollback_decline now a b = .ok (a', b')) : a'.status = .PENDING := by
  unfold rollback_decline at h
  split at h
  · cases h
  · split at h
    · cases h
    · simp only [Except.ok.injEq, Prod.mk.injEq] at h
      rw [← h.1]

/-- Inversion of a successful `submit_application`. -/
theorem submit_application_ok (now : Int) (a a' : Application)
    (h : submit_application now a = .ok a') :
    a.status = .ACCEPTED ∧ a'.status = .SUBMITTED ∧
      a'.expired_at = a.expired_at := by
  unfold submit_application check_application_status at h
  by_cases hs : a.status = .ACCEPTED
  · rw [if_pos hs] at h
    simp only at h
    by_cases hl : a.lender_id = none
    · rw [if_pos hl] at h
      cases h
    · rw [if_neg hl] at h
      simp only [Except.ok.injEq] at h
      subst h
      exact ⟨hs, rfl, rfl⟩
  · rw [if_neg hs] at h
    cases h

/-- Inversion of a successful `start_application`. -/
theorem start_application_ok (now : Int) (a a' : Application)
    (h : start_application now a = .ok a') :
    a.status = .SUBMITTED ∧ a'.status = .STARTED ∧
      a'.expired_at = a.expired_at := by
  unfold start_application check_application_status at h
  by_cases hs : a.status = .SUBMITTED
  · rw [if_pos hs] at h
    simp only [Except.ok.injEq] at h
    subst h
    exact ⟨hs, rfl, rfl⟩
  · rw [if_neg hs] at h
    cases h

/-- Inversion of a successful `request_information`. -/
theorem request_information_ok (now : Int) (a a' : Application)
    (h : request_information now a = .ok a') :
    a.status = .STARTED ∧ a'.status = .INFORMATION_REQUESTED ∧
      a'.expired_at = a.expired_at := by
  unfold request_information check_application_status at h
  by_cases hs : a.status = .STARTED
  · rw [if_pos hs] at h
    simp only [Except.ok.injEq] at h
    subst h
    exact ⟨hs, rfl, rfl⟩
  · rw [if_neg hs] at h
    cases h

/-- Inversion of a successful `complete_information_request`. -/
theorem complete_information_request_ok (now : Int) (a a' : Application)
    (h : complete_information_request now a = .ok a') :
    a.status = .INFORMATION_REQUESTED ∧ a'.status = .STARTED ∧
      a'.expired_at = a.expired_at := by
  unfold complete_information_request check_application_status at h
  by_cases hs : a.status = .INFORMATION_REQUESTED
  · rw [if_pos hs] at h
    simp only [Except.ok.injEq] at h
    subst h
    exact ⟨hs, rfl, rfl⟩
  · rw [if_neg hs] at h
    cases h

/-- Inversion of a successful `approve_application`. -/
theorem approve_application_ok (now : Int) (a a' : Application)
    (h : approve_application now a = .ok a') :
    a.status = .STARTED ∧ a'.status = .APPROVED ∧
      a'.expired_at = a.expired_at := by
  unfold approve_application check_application_status at h
  by_cases hs : a.status = .STARTED
  · rw [if_pos hs] at h
    simp only [Except.ok.injEq] at h
    subst h
    exact ⟨hs, rfl, rfl⟩
  · rw [if_neg hs] at h
    cases h

/-- Inversion of a successful `confirm_upload_contract`. -/
theorem confirm_upload_contract_ok (now : Int) (a a' : Application)
    (h : confirm_upload_contract now a = .ok a') :
    a.status = .APPROVED ∧ a'.status = .CONTRACT_UPLOADED ∧
      a'.expired_at = a.expired_at := by
  unfold confirm_upload_contract check_application_status at h
  by_cases hs : a.status = .APPROVED
  · rw [if_pos hs] at h
    simp only [Except.ok.injEq] at h
    subst h
    exact ⟨hs, rfl, rfl⟩
  · rw [if_neg hs] at h
    cases h

/-- Inversion of a successful `reject_application`. -/
theorem reject_application_ok (now : Int) (a a' : Application)
    (h : reject_application now a = .ok a') :
    (a.status = .CONTRACT_UPLOADED ∨ a.status = .STARTED) ∧
      a'.status = .REJECTED ∧ a'.expired_at = a.expired_at := by
  unfold reject_application at h
  by_cases hs : a.status = .CONTRACT_UPLOADED ∨ a.status = .STARTED
  · rw [if_pos hs] at h
    simp only [Except.ok.injEq] at h
    subst h
    exact ⟨hs, rfl, rfl⟩
  · rw [if_neg hs] at h
    cases h

/-- Inversion of a successful `complete_application`. -/
theorem complete_application_ok (now : Int) (a a' : Application)
    (h : complete_application now a = .ok a') :
    a.status = .CONTRACT_UPLOADED ∧ a'.status = .COMPLETED ∧
      a'.expired_at = a.expired_at := by
  unfold complete_application check_application_status at h
  by_cases hs : a.status = .CONTRACT_UPLOADED
  · rw [if_pos hs] at h
    simp only [Except.ok.injEq] at h
    subst h
    exact ⟨hs, rfl, rfl⟩
  · rw [if_neg hs] at h
    cases h

/-- Inversion of a successful `copy_application`: the fresh row is
`PENDING`. -/
theorem copy_application_ok (cfg : AppSettings) (now : Int) (freshId : Nat)
    (a a' : Application) (h : copy_application cfg now freshId a = .ok a') :
    a'.status = .PENDING := by
  unfold copy_application check_application_status at h
  by_cases hs : a.status = .REJECTED
  · rw [if_pos hs] at h
    simp only [Except.ok.injEq] at h
    subst h
    rfl
  · rw [if_neg hs] at h
    cases h

/-- The invariant maintained by every operation of the engine: an
application in `ACCEPTED` or in a status downstream of it has no
`expired_at` (the accept transition cleared it and nothing reinstates
it). -/
theorem reachable_inv (cfg : AppSettings) (a : Application)
    (h : Reachable cfg a) :
    acceptedOrDownstream a.status = true → a.expired_at = none := by
  induction h with
  | created award_id borrower_id email legal_identifier source_contract_id
      now s a h =>
    have hst := create_application_ok_status cfg award_id borrower_id email
      legal_identifier source_contract_id now s a h
    intro hd
    rw [hst] at hd
    cases hd
  | legacy award_id borrower_id email legal_identifier source_contract_id
      now days_until_expired =>
    intro hd
    cases hd
  | copied now freshId a a' hr hc ih =>
    have hst := copy_application_ok cfg now freshId a a' hc
    intro hd
    rw [hst] at hd
    cases hd
  | step a a' hr hstep ih =>
    cases hstep with
    | access now a a' h =>
      intro _
      exact (access_scheme_ok now a a' h).2
    | declined all now a b a' b' h =>
      have hst := decline_ok all now a b a' b' h
      intro hd
      rw [hst] at hd
      cases hd
    | rollback now a b a' b' h =>
      have hst := rollback_decline_ok now a b a' b' h
      intro hd
      rw [hst] at hd
      cases hd
    | submit now a a' h =>
      obtain ⟨h1, _, h3⟩ := submit_application_ok now a a' h
      intro _
      rw [h3]
      exact ih (by rw [h1]; rfl)
    | start now a a' h =>
      obtain ⟨h1, _, h3⟩ := start_application_ok now a a' h
      intro _
      rw [h3]
      exact ih (by rw [h1]; rfl)
    | requestInfo now a a' h =>
      obtain ⟨h1, _, h3⟩ := request_information_ok now a a' h
      intro _
      rw [h3]
      exact ih (by rw [h1]; rfl)
    | completeInfo now a a' h =>
      obtain ⟨h1, _, h3⟩ := complete_information_request_ok now a a' h
      intro _
      rw [h3]
      exact ih (by rw [h1]; rfl)
    | approve now a a' h =>
      obtain ⟨h1, _, h3⟩ := approve_application_ok now a a' h
      intro _
      rw [h3]
      exact ih (by rw [h1]; rfl)
    | uploadContract now a a' h =>
      obtain ⟨h1, _, h3⟩ := confirm_upload_contract_ok now a a' h
      intro _
      rw [h3]
      exact ih (by rw [h1]; rfl)
    | reject now a a' h =>
      obtain ⟨h1, _, h3⟩ := reject_application_ok now a a' h
      intro _
      rw [h3]
      rcases h1 with h1 | h1
      · exact ih (by rw [h1]; rfl)
      · exact ih (by rw [h1]; rfl)
    | complete now a a' h =>
      obtain ⟨h1, _, h3⟩ := complete_application_ok now a a' h
      intro _
      rw [h3]
      exact ih (by rw [h1]; rfl)
    | lapse now a =>
      unfold lapseStep
      by_cases hl : lapseable cfg now a = true
      · rw [if_pos hl]
        intro hd
        cases hd
      · rw [if_neg hl]
        exact ih
    | archive now a =>
      unfold archiveAppRecord
      exact ih

/-- C10, confirmed: `access_scheme` clears `expired_at`; every reachable
application state in `ACCEPTED` or a status downstream of the accept path
has `expired_at = none`; consequently the submission-reminder selection
predicate (status `ACCEPTED` with `expired_at` strictly between now and now
plus the reminder window) matches no reachable application — the SQL
comparison against the NULL `expired_at` is false. -/
theorem thm_C10_expired_invariant (cfg : AppSettings) (a : Application)
    (h : Reachable cfg a) :
    (∀ (now : Int) (a' : Application),
      access_scheme now a = .ok a' → a'.expired_at = none) ∧
    (acceptedOrDownstream a.status = true → a.expired_at = none) ∧
    (∀ (now : Int) (msgs : List Message),
      pending_submission_reminder cfg now msgs a = false) := by
  refine ⟨?_, reachable_inv cfg a h, ?_⟩
  · intro now a' hacc
    exact (access_scheme_ok now a a' hacc).2
  · intro now msgs
    unfold pending_submission_reminder
    by_cases hs : a.status = .ACCEPTED
    · have hexp : a.expired_at = none := reachable_inv cfg a h (by rw [hs]; rfl)
      rw [hexp]
      simp [optGt]
    · simp [hs]

/-- C10, witness: a freshly invited legacy application that was accepted at
time 1 is never matched by the submission-reminder predicate. -/
theorem thm_C10_expired_invariant_witness :
    pending_submission_reminder ({} : AppSettings) 5 []
      { create_application_legacy 1 2 "e" "l" "c" 0 7 with
        borrower_accepted_at := some 1, status := .ACCEPTED,
        expired_at := none } = false :=
  (thm_C10_expired_invariant ({} : AppSettings) _
    (Reachable.step _ _ (Reachable.legacy 1 2 "e" "l" "c" 0 7)
      (Step.access 1 _ _ (by rfl)))).2.2 5 []

/-- In a list whose keys are pairwise distinct, two members with the same
key are equal. -/
theorem nodup_key_inj {α : Type} (f : α → Nat) :
    ∀ l : List α, (l.map f).Nodup →
      ∀ b1 ∈ l, ∀ b2 ∈ l, f b1 = f b2 → b1 = b2 := by
  intro l
  induction l with
  | nil =>
    intro _ b1 h1
    cases h1
  | cons x t ih =>
    intro hnd b1 h1 b2 h2 hf
    rw [List.map_cons, List.nodup_cons] at hnd
    obtain ⟨hx, hnd'⟩ := hnd
    rcases List.mem_cons.mp h1 with h1e | h1m
    · rcases List.mem_cons.mp h2 with h2e | h2m
      · rw [h1e, h2e]
      · exfalso
        apply hx
        have hfx : f x = f b2 := by rw [← h1e]; exact hf
        rw [hfx]
        exact List.mem_map_of_mem f h2m
    · rcases List.mem_cons.mp h2 with h2e | h2m
      · exfalso
        apply hx
        have hfx : f x = f b1 := by rw [← h2e]; exact hf.symm
        rw [hfx]
        exact List.mem_map_of_mem f h1m
      · exact ih hnd' b1 h1m b2 h2m hf

/-- Any list containing an element of the given borrower splits off its last
element of that borrower. -/
theorem last_borrower_decomp (β : Nat) :
    ∀ l : List Application, (∃ c ∈ l, c.borrower_id = β) →
      ∃ (P : List Application) (c : Application) (S : List Application),
        l = P ++ c :: S ∧ c.borrower_id = β ∧
        ∀ d ∈ S, d.borrower_id ≠ β := by
  intro l
  induction l with
  | nil =>
    rintro ⟨c, hc, _⟩
    cases hc
  | cons x t ih =>
    rintro ⟨c, hc, hcβ⟩
    by_cases ht : ∃ d ∈ t, d.borrower_id = β
    · obtain ⟨P, c', S, hsplit, hc'β, hS⟩ := ih ht
      exact ⟨x :: P, c', S, by simp [hsplit], hc'β, hS⟩
    · have hxβ : x.borrower_id = β := by
        rcases List.mem_cons.mp hc with rfl | hmem
        · exact hcβ
        · exact absurd ⟨c, hmem, hcβ⟩ ht
      refine ⟨[], x, t, rfl, hxβ, ?_⟩
      intro d hd hdβ
      exact ht ⟨d, hd, hdβ⟩

/-- `applyArchives` never changes an application's id or borrower
reference. -/
theorem applyArchives_id_bid (now : Int) :
    ∀ (L : List Application) (x : Application),
      (applyArchives L now x).id = x.id ∧
      (applyArchives L now x).borrower_id = x.borrower_id := by
  intro L
  induction L with
  | nil =>
    intro x
    exact ⟨rfl, rfl⟩
  | cons c L ih =>
    intro x
    have hstep : applyArchives (c :: L) now x =
        applyArchives L now (if x.id == c.id then archiveAppRecord now x
          else x) := rfl
    rw [hstep]
    by_cases hx : (x.id == c.id) = true
    · rw [if_pos hx]
      exact ih (archiveAppRecord now x)
    · rw [if_neg hx]
      exact ih x

/-- An application none of the processed candidates matches is completely
untouched. -/
theorem applyArchives_of_not_hit (now : Int) :
    ∀ (L : List Application) (x : Application),
      L.any (fun c => x.id == c.id) = false →
      applyArchives L now x = x := by
  intro L
  induction L with
  | nil =>
    intro x _
    rfl
  | cons c L ih =>
    intro x hany
    simp only [List.any_cons, Bool.or_eq_false_iff] at hany
    have hstep : applyArchives (c :: L) now x =
        applyArchives L now (if x.id == c.id then archiveAppRecord now x
          else x) := rfl
    rw [hstep, if_neg (by simp [hany.1]), ih x hany.2]

/-- An application some processed candidate matches is scrubbed: email
blanked, documents deleted, `archived_at` set to the sweep time. -/
theorem applyArchives_of_hit (now : Int) :
    ∀ (L : List Application) (x : Application),
      L.any (fun c => x.id == c.id) = true →
      (applyArchives L now x).primary_email = "" ∧
      (applyArchives L now x).borrower_documents = [] ∧
      (applyArchives L now x).archived_at = some now := by
  intro L
  induction L with
  | nil =>
    intro x hany
    cases hany
  | cons c L ih =>
    intro x hany
    have hstep : applyArchives (c :: L) now x =
        applyArchives L now (if x.id == c.id then archiveAppRecord now x
          else x) := rfl
    rw [hstep]
    by_cases hx : (x.id == c.id) = true
    · rw [if_pos hx]
      by_cases hL : L.any (fun c => (archiveAppRecord now x).id == c.id) = true
      · exact ih (archiveAppRecord now x) hL
      · have : L.any (fun c => (archiveAppRecord now x).id == c.id) = false := by
          cases h : L.any (fun c => (archiveAppRecord now x).id == c.id)
          · rfl
          · exact absurd h hL
        rw [applyArchives_of_not_hit now L _ this]
        exact ⟨rfl, rfl, rfl⟩
    · rw [if_neg hx]
      apply ih x
      simp only [List.any_cons, Bool.or_eq_true] at hany
      rcases hany with h | h
      · exact absurd h hx
      · exact h

/-- The applications component of a retention fold is the pointwise
`applyArchives` of the processed candidates. -/
theorem retention_fold_apps (now : Int) :
    ∀ (L : List Application) (s : DB),
      (L.foldl (archiveStep now) s).applications =
        s.applications.map (applyArchives L now) := by
  intro L
  induction L with
  | nil =>
    intro s
    have : s.applications.map (applyArchives [] now) =
        s.applications.map (fun x => x) := rfl
    simp only [List.foldl_nil, this, List.map_id_fun']
    rfl
  | cons c L ih =>
    intro s
    simp only [List.foldl_cons]
    rw [ih (archiveStep now s c)]
    show (s.applications.map
      (fun x => if x.id == c.id then archiveAppRecord now x else x)).map
        (applyArchives L now) = _
    rw [List.map_map]
    rfl

/-- The components of one retention iteration, spelled out. -/
theorem archiveStep_borrowers (now : Int) (s : DB) (c : Application) :
    (archiveStep now s c).borrowers =
      if hasOtherActive
          (s.applications.map
            (fun x => if x.id == c.id then archiveAppRecord now x else x))
          c.id c.borrower_id then
        s.borrowers
      else
        s.borrowers.map
          (fun b => if b.id == c.borrower_id then blankBorrower b else b) := rfl

/-- Blanking a borrower is idempotent and preserves its id. -/
theorem blankBorrower_blank (b : Borrower) :
    blankBorrower (blankBorrower b) = blankBorrower b ∧
    (blankBorrower b).id = b.id := ⟨rfl, rfl⟩

/-- The retention fold carries every borrower row forward, either untouched
or blanked. -/
theorem retention_fold_borrower_forward (now : Int) :
    ∀ (L : List Application) (s : DB) (b : Borrower), b ∈ s.borrowers →
      ∃ b1 ∈ (L.foldl (archiveStep now) s).borrowers,
        b1.id = b.id ∧ (b1 = b ∨ b1 = blankBorrower b) := by
  intro L
  induction L with
  | nil =>
    intro s b hb
    exact ⟨b, hb, rfl, Or.inl rfl⟩
  | cons c L ih =>
    intro s b hb
    simp only [List.foldl_cons]
    have hstep : ∃ b0 ∈ (archiveStep now s c).borrowers,
        b0.id = b.id ∧ (b0 = b ∨ b0 = blankBorrower b) := by
      rw [archiveStep_borrowers]
      by_cases hcond : hasOtherActive
          (s.applications.map
            (fun x => if x.id == c.id then archiveAppRecord now x else x))
          c.id c.borrower_id = true
      · rw [if_pos hcond]
        exact ⟨b, hb, rfl, Or.inl rfl⟩
      · rw [if_neg hcond]
        refine ⟨if b.id == c.borrower_id then blankBorrower b else b,
          List.mem_map_of_mem _ hb, ?_, ?_⟩
        · by_cases hid : (b.id == c.borrower_id) = true
          · rw [if_pos hid]
            rfl
          · rw [if_neg hid]
        · by_cases hid : (b.id == c.borrower_id) = true
          · rw [if_pos hid]
            exact Or.inr rfl
          · rw [if_neg hid]
            exact Or.inl rfl
    obtain ⟨b0, hb0, hb0id, hb0or⟩ := hstep
    obtain ⟨b1, hb1, hb1id, hb1or⟩ := ih (archiveStep now s c) b0 hb0
    refine ⟨b1, hb1, by rw [hb1id, hb0id], ?_⟩
    rcases hb1or with h | h <;> rcases hb0or with h0 | h0
    · exact Or.inl (by rw [h, h0])
    · exact Or.inr (by rw [h, h0])
    · exact Or.inr (by rw [h, h0])
    · refine Or.inr ?_
      rw [h, h0]
      exact (blankBorrower_blank b).1

/-- The retention fold preserves the sequence of borrower ids. -/
theorem retention_fold_borrower_ids (now : Int) :
    ∀ (L : List Application) (s : DB),
      ((L.foldl (archiveStep now) s).borrowers).map (fun x => x.id) =
        s.borrowers.map (fun x => x.id) := by
  intro L
  induction L with
  | nil =>
    intro s
    rfl
  | cons c L ih =>
    intro s
    simp only [List.foldl_cons]
    rw [ih (archiveStep now s c), archiveStep_borrowers]
    by_cases hcond : hasOtherActive
        (s.applications.map
          (fun x => if x.id == c.id then archiveAppRecord now x else x))
        c.id c.borrower_id = true
    · rw [if_pos hcond]
    · rw [if_neg hcond, List.map_map]
      apply List.map_congr_left
      intro x _
      by_cases hid : (x.id == c.borrower_id) = true
      · simp [Function.comp, hid, blankBorrower]
      · simp [Function.comp, hid]

/-- While some other non-archived application of the same borrower survives
every processed candidate, the borrower's personal fields are preserved by
the retention fold. -/
theorem retention_fold_borrower_kept (now : Int) :
    ∀ (L : List Application) (s : DB) (x : Application) (b : Borrower),
      x ∈ s.applications → x.borrower_id = b.id → x.archived_at = none →
      (∀ c ∈ L, ¬ x.id = c.id) → b ∈ s.borrowers →
      ∃ b' ∈ (L.foldl (archiveStep now) s).borrowers,
        b'.id = b.id ∧ b'.legal_name = b.legal_name ∧ b'.email = b.email ∧
        b'.address = b.address := by
  intro L
  induction L with
  | nil =>
    intro s x b hx _ _ _ hb
    exact ⟨b, hb, rfl, rfl, rfl, rfl⟩
  | cons c L ih =>
    intro s x b hx hxb hxarch hnc hb
    simp only [List.foldl_cons]
    have hxc : (x.id == c.id) = false := by
      have := hnc c (List.mem_cons_self c L)
      exact beq_eq_false_iff_ne.mpr this
    have hxmem : x ∈ (archiveStep now s c).applications := by
      show x ∈ s.applications.map
        (fun y => if y.id == c.id then archiveAppRecord now y else y)
      have himg := List.mem_map_of_mem
        (fun y => if y.id == c.id then archiveAppRecord now y else y) hx
      simp only at himg
      rwa [if_neg (by simp [hxc])] at himg
    have hbmem : b ∈ (archiveStep now s c).borrowers := by
      rw [archiveStep_borrowers]
      by_cases hcond : hasOtherActive
          (s.applications.map
            (fun y => if y.id == c.id then archiveAppRecord now y else y))
          c.id c.borrower_id = true
      · rw [if_pos hcond]
        exact hb
      · rw [if_neg hcond]
        by_cases hcb : c.borrower_id = b.id
        · exfalso
          apply hcond
          unfold hasOtherActive
          apply List.any_eq_true.mpr
          refine ⟨x, hxmem, ?_⟩
          have h1 : (x.id != c.id) = true := by
            simp only [bne_iff_ne, ne_eq]
            exact hnc c (List.mem_cons_self c L)
          have h2 : (x.borrower_id == c.borrower_id) = true := by
            rw [beq_iff_eq, hxb, hcb]
          have h3 : (x.archived_at == none) = true := by
            rw [beq_iff_eq, hxarch]
          rw [h1, h2, h3]
          rfl
        · have : (b.id == c.borrower_id) = false :=
            beq_eq_false_iff_ne.mpr (fun h => hcb h.symm)
          have himg := List.mem_map_of_mem
            (fun y => if y.id == c.borrower_id then blankBorrower y else y) hb
          simp only at himg
          rwa [if_neg (by simp [this])] at himg
    exact ih (archiveStep now s c) x b hxmem hxb hxarch
      (fun d hd => hnc d (List.mem_cons_of_mem c hd)) hbmem

/-- C5, confirmed: after one retention sweep, a `DECLINED` application whose
decline is older than the retention window (and not yet archived) has its
primary email blanked, no remaining borrower documents, and `archived_at`
set; and the owning borrower's personal fields (legal name, email, address)
are blanked exactly when, after the sweep, no other non-archived application
references that borrower — in particular a second active application for the
same borrower leaves them populated. -/
theorem thm_C5_retention (cfg : AppSettings) (now : Int) (s : DB)
    (a : Application) (b : Borrower)
    (hmem : a ∈ s.applications)
    (hstatus : a.status = .DECLINED)
    (hold : optPlusLt a.borrower_declined_at cfg.days_to_erase_borrower_data
      now = true)
    (harch : a.archived_at = none)
    (hndA : (s.applications.map (fun x => x.id)).Nodup)
    (hndB : (s.borrowers.map (fun x => x.id)).Nodup)
    (hb : b ∈ s.borrowers) (hbid : b.id = a.borrower_id)
    (hpop : b.email ≠ "") :
    (∃ a' ∈ (remove_dated_application_data cfg now s).applications,
      a'.id = a.id ∧ a'.primary_email = "" ∧ a'.borrower_documents = [] ∧
      a'.archived_at = some now) ∧
    ((∃ b' ∈ (remove_dated_application_data cfg now s).borrowers,
        b'.id = b.id ∧ b'.legal_name = "" ∧ b'.email = "" ∧ b'.address = "") ↔
      ¬ ∃ x ∈ (remove_dated_application_data cfg now s).applications,
        x.id ≠ a.id ∧ x.borrower_id = a.borrower_id ∧
        x.archived_at = none) := by
  set C := s.applications.filter (archivable cfg now) with hC
  have hsweep : remove_dated_application_data cfg now s =
      C.foldl (archiveStep now) s := by
    rw [hC]
    rfl
  have haC : a ∈ C := by
    rw [hC]
    exact List.mem_filter.mpr
      ⟨hmem, by simp [archivable, hstatus, harch, hold]⟩
  have hCsub : ∀ d ∈ C, d ∈ s.applications := by
    intro d hd
    rw [hC] at hd
    exact (List.mem_filter.mp hd).1
  have happs : (remove_dated_application_data cfg now s).applications =
      s.applications.map (applyArchives C now) := by
    rw [hsweep]
    exact retention_fold_apps now C s
  have hhit : C.any (fun c => a.id == c.id) = true :=
    List.any_eq_true.mpr ⟨a, haC, by simp⟩
  constructor
  · obtain ⟨he, hd, har⟩ := applyArchives_of_hit now C a hhit
    refine ⟨applyArchives C now a, ?_, (applyArchives_id_bid now C a).1,
      he, hd, har⟩
    rw [happs]
    exact List.mem_map_of_mem _ hmem
  · have htrans : (∃ x ∈ (remove_dated_application_data cfg now s).applications,
        x.id ≠ a.id ∧ x.borrower_id = a.borrower_id ∧ x.archived_at = none) ↔
        (∃ x0 ∈ s.applications, x0.id ≠ a.id ∧
          x0.borrower_id = a.borrower_id ∧ x0.archived_at = none ∧
          C.any (fun c => x0.id == c.id) = false) := by
      rw [happs]
      constructor
      · rintro ⟨x, hx, hid, hbid2, harch2⟩
        obtain ⟨x0, hx0, rfl⟩ := List.mem_map.mp hx
        by_cases hany : C.any (fun c => x0.id == c.id) = true
        · obtain ⟨_, _, har⟩ := applyArchives_of_hit now C x0 hany
          rw [har] at harch2
          cases harch2
        · have hany' : C.any (fun c => x0.id == c.id) = false := by
            cases h : C.any (fun c => x0.id == c.id)
            · rfl
            · exact absurd h hany
          rw [applyArchives_of_not_hit now C x0 hany'] at hid hbid2 harch2
          exact ⟨x0, hx0, hid, hbid2, harch2, hany'⟩
      · rintro ⟨x0, hx0, hid, hbid2, harch2, hany⟩
        refine ⟨applyArchives C now x0, List.mem_map_of_mem _ hx0, ?_⟩
        rw [applyArchives_of_not_hit now C x0 hany]
        exact ⟨hid, hbid2, harch2⟩
    constructor
    · rintro ⟨b', hb'mem, hb'id, _, hb'em, _⟩ hpost
      rw [htrans] at hpost
      obtain ⟨x0, hx0, hxid, hxbid, hxarch, hxany⟩ := hpost
      have hnohit : ∀ c ∈ C, ¬ x0.id = c.id := by
        intro c hcmem hce
        have htrue : C.any (fun c => x0.id == c.id) = true :=
          List.any_eq_true.mpr ⟨c, hcmem, by simp [hce]⟩
        rw [hxany] at htrue
        cases htrue
      obtain ⟨b'', hb''mem, hb''id, _, hb''em, _⟩ :=
        retention_fold_borrower_kept now C s x0 b hx0
          (by rw [hxbid, ← hbid]) hxarch hnohit hb
      rw [← hsweep] at hb''mem
      have hfinalnd : ((remove_dated_application_data cfg now
          s).borrowers.map (fun x => x.id)).Nodup := by
        rw [hsweep, retention_fold_borrower_ids]
        exact hndB
      have hbb : b' = b'' :=
        nodup_key_inj (fun x => x.id) _ hfinalnd b' hb'mem b'' hb''mem
          (by show b'.id = b''.id; rw [hb'id, hb''id])
      apply hpop
      rw [← hb''em, ← hbb]
      exact hb'em
    · intro hnone
      rw [htrans] at hnone
      obtain ⟨P, c, S, hCsplit, hcβ, hS⟩ :=
        last_borrower_decomp a.borrower_id C ⟨a, haC, rfl⟩
      have hfold : C.foldl (archiveStep now) s =
          S.foldl (archiveStep now)
            (archiveStep now (P.foldl (archiveStep now) s) c) := by
        rw [hCsplit, List.foldl_append, List.foldl_cons]
      set s1 := P.foldl (archiveStep now) s with hs1
      have hs1apps : s1.applications = s.applications.map (applyArchives P now) :=
        retention_fold_apps now P s
      have hno : hasOtherActive
          (s1.applications.map
            (fun x => if x.id == c.id then archiveAppRecord now x else x))
          c.id c.borrower_id = false := by
        unfold hasOtherActive
        by_cases hanyall : (s1.applications.map
            (fun x => if x.id == c.id then archiveAppRecord now x else x)).any
            (fun x => x.id != c.id && x.borrower_id == c.borrower_id &&
              x.archived_at == none) = true
        · exfalso
          obtain ⟨y, hy, hyp⟩ := List.any_eq_true.mp hanyall
          obtain ⟨y1, hy1, rfl⟩ := List.mem_map.mp hy
          rw [hs1apps] at hy1
          obtain ⟨x0, hx0, rfl⟩ := List.mem_map.mp hy1
          by_cases hxc : ((applyArchives P now x0).id == c.id) = true
          · rw [if_pos hxc] at hyp
            simp only [Bool.and_eq_true] at hyp
            have harch2 := hyp.2
            simp [archiveAppRecord] at harch2
          · rw [if_neg hxc] at hyp
            simp only [Bool.and_eq_true, bne_iff_ne, ne_eq, beq_iff_eq] at hyp
            obtain ⟨⟨hyid, hybid⟩, hyarch⟩ := hyp
            have hx0id : x0.id ≠ c.id := by
              intro h
              apply hxc
              rw [beq_iff_eq, (applyArchives_id_bid now P x0).1, h]
            have hx0bid : x0.borrower_id = c.borrower_id := by
              rw [← (applyArchives_id_bid now P x0).2, hybid]
            by_cases hPhit : P.any (fun d => x0.id == d.id) = true
            · obtain ⟨_, _, har⟩ := applyArchives_of_hit now P x0 hPhit
              rw [har] at hyarch
              cases hyarch
            · have hPhit' : P.any (fun d => x0.id == d.id) = false := by
                cases h : P.any (fun d => x0.id == d.id)
                · rfl
                · exact absurd h hPhit
              rw [applyArchives_of_not_hit now P x0 hPhit'] at hyarch
              have hx0mem : x0 ∈ s.applications := hx0
              -- x0 cannot be a itself
              have hx0nea : x0.id ≠ a.id := by
                intro hids
                have hxa : x0 = a := nodup_key_inj (fun x => x.id)
                  s.applications hndA x0 hx0mem a hmem hids
                rw [hCsplit] at haC
                rcases List.mem_append.mp haC with hP | hcs
                · have : P.any (fun d => x0.id == d.id) = true :=
                    List.any_eq_true.mpr ⟨a, hP, by simp [hids]⟩
                  rw [hPhit'] at this
                  cases this
                · rcases List.mem_cons.mp hcs with hac | haS
                  · apply hx0id
                    rw [hids, hac]
                  · apply hS a haS
                    rfl
              -- now x0 survives the whole sweep, contradicting hnone
              have hCany : C.any (fun d => x0.id == d.id) = true := by
                by_contra hfalse
                apply hnone
                refine ⟨x0, hx0mem, hx0nea, by rw [hx0bid, hcβ], hyarch, ?_⟩
                cases h : C.any (fun d => x0.id == d.id)
                · rfl
                · exact absurd h hfalse
              obtain ⟨d, hdC, hdid⟩ := List.any_eq_true.mp hCany
              rw [beq_iff_eq] at hdid
              have hdx : d = x0 := nodup_key_inj (fun x => x.id)
                s.applications hndA d (hCsub d hdC) x0 hx0mem hdid.symm
              rw [hdx] at hdC
              rw [hCsplit] at hdC
              rcases List.mem_append.mp hdC with hP | hcs
              · have : P.any (fun d => x0.id == d.id) = true :=
                  List.any_eq_true.mpr ⟨x0, hP, by simp⟩
                rw [hPhit'] at this
                cases this
              · rcases List.mem_cons.mp hcs with hac | haS
                · apply hx0id
                  rw [hac]
                · apply hS x0 haS
                  rw [hx0bid, hcβ]
        · cases h : (s1.applications.map
              (fun x => if x.id == c.id then archiveAppRecord now x else x)).any
              (fun x => x.id != c.id && x.borrower_id == c.borrower_id &&
                x.archived_at == none)
          · rfl
          · exact absurd h hanyall
      -- the borrower is blanked at candidate c and stays blanked
      obtain ⟨b1, hb1mem, hb1id, hb1or⟩ :=
        retention_fold_borrower_forward now P s b hb
      have hblank : blankBorrower b ∈ (archiveStep now s1 c).borrowers := by
        rw [archiveStep_borrowers, if_neg (by rw [hno]; exact fun h => by cases h)]
        have hb1c : (b1.id == c.borrower_id) = true := by
          rw [beq_iff_eq, hb1id, hbid, hcβ]
        have himg := List.mem_map_of_mem
          (fun y => if y.id == c.borrower_id then blankBorrower y else y) hb1mem
        simp only at himg
        rw [if_pos hb1c] at himg
        rcases hb1or with h | h
        · rwa [h] at himg
        · rw [h] at himg
          rwa [(blankBorrower_blank b).1] at himg
      obtain ⟨b2, hb2mem, hb2id, hb2or⟩ :=
        retention_fold_borrower_forward now S (archiveStep now s1 c)
          (blankBorrower b) hblank
      have hb2 : b2 = blankBorrower b := by
        rcases hb2or with h | h
        · exact h
        · rw [h]
          exact (blankBorrower_blank b).1
      refine ⟨b2, ?_, ?_, ?_, ?_, ?_⟩
      · rw [hsweep, hfold]
        exact hb2mem
      · rw [hb2id]
        rfl
      · rw [hb2]
        rfl
      · rw [hb2]
        rfl
      · rw [hb2]
        rfl

/-- C5, witness: a dated `DECLINED` application (declined at day 0, sweep at
day 100, retention window 30 days) plus a second active application of the
same borrower: the application is scrubbed and the iff applies to the
populated borrower. -/
theorem thm_C5_retention_witness :
    (∃ a' ∈ (remove_dated_application_data ({} : AppSettings) 100
        ({ applications := [({ id := 1, borrower_id := 5, status := .DECLINED, borrower_declined_at := some 0, primary_email := "m@x", borrower_documents := [11] } : Application), ({ id := 2, borrower_id := 5, status := .PENDING } : Application)], borrowers := [({ id := 5, email := "b@x", legal_name := "N", address := "A" } : Borrower)] } : DB)).applications,
      a'.id = 1 ∧ a'.primary_email = "" ∧ a'.borrower_documents = [] ∧
      a'.archived_at = some 100) ∧
    ((∃ b' ∈ (remove_dated_application_data ({} : AppSettings) 100
        ({ applications := [({ id := 1, borrower_id := 5, status := .DECLINED, borrower_declined_at := some 0, primary_email := "m@x", borrower_documents := [11] } : Application), ({ id := 2, borrower_id := 5, status := .PENDING } : Application)], borrowers := [({ id := 5, email := "b@x", legal_name := "N", address := "A" } : Borrower)] } : DB)).borrowers,
        b'.id = 5 ∧ b'.legal_name = "" ∧ b'.email = "" ∧ b'.address = "") ↔
      ¬ ∃ x ∈ (remove_dated_application_data ({} : AppSettings) 100
        ({ applications := [({ id := 1, borrower_id := 5, status := .DECLINED, borrower_declined_at := some 0, primary_email := "m@x", borrower_documents := [11] } : Application), ({ id := 2, borrower_id := 5, status := .PENDING } : Application)], borrowers := [({ id := 5, email := "b@x", legal_name := "N", address := "A" } : Borrower)] } : DB)).applications,
        x.id ≠ 1 ∧ x.borrower_id = 5 ∧ x.archived_at = none) :=
  thm_C5_retention ({} : AppSettings) 100
    ({ applications := [({ id := 1, borrower_id := 5, status := .DECLINED, borrower_declined_at := some 0, primary_email := "m@x", borrower_documents := [11] } : Application), ({ id := 2, borrower_id := 5, status := .PENDING } : Application)], borrowers := [({ id := 5, email := "b@x", legal_name := "N", address := "A" } : Borrower)] } : DB)
    ({ id := 1, borrower_id := 5, status := .DECLINED, borrower_declined_at := some 0, primary_email := "m@x", borrower_documents := [11] } : Application)
    ({ id := 5, email := "b@x", legal_name := "N", address := "A" } : Borrower)
    (by decide) rfl (by decide) rfl (by decide) (by decide) (by decide) rfl
    (by decide)

end Credere
